import Mathlib

/-!
Verification of the alloy consensus/signer core: RLP codec, legacy
transaction envelope, EIP-155 signature parity handling, receipts and
bloom filters, and wallet key material.

Byte strings are modelled as `List Nat` (each entry a byte value `< 256`
wherever a validity hypothesis requires it).  Fallible decoders return
`Except RlpError (value × rest)`, mirroring the Rust `&mut &[u8]` cursor:
`rest` is the unconsumed tail.
-/

namespace Alloy

/-- Byte strings. -/
abbrev ByteL := List Nat

/-- Decidable equality for `Except`, so decoder results can be checked
by evaluation. -/
instance {ε α : Type} [DecidableEq ε] [DecidableEq α] : DecidableEq (Except ε α) :=
  fun x y =>
    match x, y with
    | .ok a, .ok b =>
      if h : a = b then isTrue (by rw [h]) else isFalse (fun hh => h (Except.ok.inj hh))
    | .error e, .error f =>
      if h : e = f then isTrue (by rw [h]) else isFalse (fun hh => h (Except.error.inj hh))
    | .ok _, .error _ => isFalse (fun hh => Except.noConfusion hh)
    | .error _, .ok _ => isFalse (fun hh => Except.noConfusion hh)

/-- `alloy_rlp::Error`: structured decode failures. -/
inductive RlpError where
  | inputTooShort
  | unexpectedString
  | unexpectedList
  | leadingZero
  | nonCanonicalSingleByte
  | nonCanonicalSize
  | overflow
  | listLengthMismatch (expected got : Nat)
  | unexpectedLength
  | custom (msg : String)
deriving DecidableEq, Repr

/-- `alloy_rlp::Header`: `{ list: bool, payload_length: usize }`. -/
structure RlpHeader where
  list : Bool
  payloadLength : Nat
deriving DecidableEq, Repr

/-- Minimal big-endian byte form of a natural, with explicit fuel so the
kernel can evaluate it (fuel bounds the number of output bytes). -/
def beBytesF : Nat → Nat → ByteL
  | 0, _ => []
  | fuel + 1, n => if n = 0 then [] else beBytesF fuel (n / 256) ++ [n % 256]

/-- `to_be_bytes_trimmed`: minimal big-endian byte form of a natural.
64 bytes of fuel covers every value below `2^512`, far beyond every
scalar (≤ 32 bytes) and length (`usize`) in the codec. -/
def beBytes (n : Nat) : ByteL := beBytesF 64 n

/-- Big-endian value of a byte string. -/
def beVal (l : ByteL) : Nat := l.foldl (fun a b => a * 256 + b) 0

/-- `alloy_rlp::length_of_length`: byte length of a header encoding a
payload of `payloadLength` bytes. -/
def lengthOfLength (payloadLength : Nat) : Nat :=
  if payloadLength < 56 then 1 else 1 + (beBytes payloadLength).length

/-- `Header::encode`: single byte for short payloads, code plus trimmed
big-endian length for long payloads. -/
def headerEncode (h : RlpHeader) : ByteL :=
  if h.payloadLength < 56 then
    [(if h.list then 0xC0 else 0x80) + h.payloadLength]
  else
    ((if h.list then 0xF7 else 0xB7) + (beBytes h.payloadLength).length) ::
      beBytes h.payloadLength

/-- `Header::length_with_payload`. -/
def lengthWithPayload (h : RlpHeader) : Nat :=
  lengthOfLength h.payloadLength + h.payloadLength

/-- `Header::decode`: reads one header off the front of the buffer.  A
byte `≤ 0x7F` is a single-byte string whose payload is the byte itself
(the cursor is not advanced past it).  Ends with the
`remaining < payload_length` input-too-short check. -/
def headerDecode (buf : ByteL) : Except RlpError (RlpHeader × ByteL) := do
  match buf with
  | [] => throw RlpError.inputTooShort
  | b :: rest =>
    if b ≤ 0x7F then
      -- single byte: payload is the byte itself, cursor not advanced
      let h : RlpHeader := ⟨false, 1⟩
      pure (h, b :: rest)
    else if b ≤ 0xB7 then
      let pl := b - 0x80
      if pl = 1 then
        match rest with
        | [] => throw RlpError.inputTooShort
        | c :: _ =>
          if c < 0x80 then throw RlpError.nonCanonicalSingleByte
          else if rest.length < pl then throw RlpError.inputTooShort
          else pure (⟨false, pl⟩, rest)
      else
        if rest.length < pl then throw RlpError.inputTooShort
        else pure (⟨false, pl⟩, rest)
    else if b ≤ 0xBF then
      let lenOfLen := b - 0xB7
      if rest.length < lenOfLen then throw RlpError.inputTooShort
      else
        let lenBytes := rest.take lenOfLen
        let rest2 := rest.drop lenOfLen
        if lenBytes.head? = some 0 then throw RlpError.leadingZero
        else
          let pl := beVal lenBytes
          if pl < 56 then throw RlpError.nonCanonicalSize
          else if rest2.length < pl then throw RlpError.inputTooShort
          else pure (⟨false, pl⟩, rest2)
    else if b ≤ 0xF7 then
      let pl := b - 0xC0
      if rest.length < pl then throw RlpError.inputTooShort
      else pure (⟨true, pl⟩, rest)
    else
      let lenOfLen := b - 0xF7
      if rest.length < lenOfLen then throw RlpError.inputTooShort
      else
        let lenBytes := rest.take lenOfLen
        let rest2 := rest.drop lenOfLen
        if lenBytes.head? = some 0 then throw RlpError.leadingZero
        else
          let pl := beVal lenBytes
          if pl < 56 then throw RlpError.nonCanonicalSize
          else if rest2.length < pl then throw RlpError.inputTooShort
          else pure (⟨true, pl⟩, rest2)

/-- `Header::decode_bytes(buf, is_list)`: header plus exactly
`payload_length` payload bytes. -/
def decodeBytesWith (isList : Bool) (buf : ByteL) :
    Except RlpError (ByteL × ByteL) := do
  let (h, rest) ← headerDecode buf
  if h.list ≠ isList then
    throw (if isList then RlpError.unexpectedString else RlpError.unexpectedList)
  else
    pure (rest.take h.payloadLength, rest.drop h.payloadLength)

/-- Integer `Encodable::encode`: zero is the empty string (`0x80`), a
single byte below `0x80` stands alone, anything else is a short string
header over the trimmed big-endian bytes. -/
def rlpEncNat (n : Nat) : ByteL :=
  if n = 0 then [0x80]
  else if n < 0x80 then [n]
  else (0x80 + (beBytes n).length) :: beBytes n

/-- Integer `Encodable::length`. -/
def natRlpLength (n : Nat) : Nat :=
  if n < 0x80 then 1 else 1 + (beBytes n).length

/-- Integer `Decodable::decode` with the width bound `maxBytes`
(`8` for `u64`, `16` for `u128`, `32` for `U256`): string payload,
overflow and leading-zero checks, big-endian value. -/
def rlpDecNat (maxBytes : Nat) (buf : ByteL) :
    Except RlpError (Nat × ByteL) := do
  let (bytes, rest) ← decodeBytesWith false buf
  if bytes.length > maxBytes then throw RlpError.overflow
  else if bytes.head? = some 0 then throw RlpError.leadingZero
  else pure (beVal bytes, rest)

/-- `impl Encodable for [u8]`: a single byte below `0x80` is embedded
directly, otherwise a string header precedes the bytes. -/
def rlpEncBytes (data : ByteL) : ByteL :=
  if data.length = 1 ∧ data.headI < 0x80 then data
  else headerEncode ⟨false, data.length⟩ ++ data

/-- `impl Encodable for [u8]`, `length`. -/
def bytesRlpLength (data : ByteL) : Nat :=
  if data.length = 1 ∧ data.headI < 0x80 then 1
  else lengthOfLength data.length + data.length

/-- `impl Decodable for Bytes`: any string payload. -/
def rlpDecBytes (buf : ByteL) : Except RlpError (ByteL × ByteL) :=
  decodeBytesWith false buf

/-!
## Keccak-256

Modelled from the spec: the spec treats the canonical hash as an opaque
`hash(bytes)` collaborator (`alloy_primitives::keccak256`, not part of the
source tree); it is embedded here as the standard Keccak-256 permutation
(rate 1088, capacity 512, original `0x01` multi-rate padding) so that the
known-vector facts are checkable.
-/

/-- 64-bit mask. -/
def m64 : Nat := 2 ^ 64 - 1

/-- 64-bit left rotation. -/
def rotl64 (x n : Nat) : Nat :=
  (((x <<< n) &&& m64) ||| (x >>> (64 - n))) &&& m64

/-- Keccak rotation offsets, flat-indexed by `x + 5*y` (rows are
`y = 0..4`). -/
def keccakRot : List Nat :=
  List.flatten
    [[0, 1, 62, 28, 27],
     [36, 44, 6, 55, 20],
     [3, 10, 43, 25, 39],
     [41, 45, 15, 21, 8],
     [18, 2, 61, 56, 14]]

/-- Keccak round constants (decimal). -/
def keccakRC : List Nat :=
  [1,
   32898, 9223372036854808714, 9223372039002292224,
   32907, 2147483649, 9223372039002292353,
   9223372036854808585, 138, 136,
   2147516425, 2147483658, 2147516555,
   9223372036854775947, 9223372036854808713, 9223372036854808579,
   9223372036854808578, 9223372036854775936, 32778,
   9223372039002259466, 9223372039002292353, 9223372036854808704,
   2147483649, 9223372039002292232]

/-- θ step. -/
def keccakTheta (s : List Nat) : List Nat :=
  let c := (List.range 5).map fun x =>
    s.getD x 0 ^^^ s.getD (x + 5) 0 ^^^ s.getD (x + 10) 0 ^^^
      s.getD (x + 15) 0 ^^^ s.getD (x + 20) 0
  let d := (List.range 5).map fun x =>
    c.getD ((x + 4) % 5) 0 ^^^ rotl64 (c.getD ((x + 1) % 5) 0) 1
  (List.range 25).map fun i => s.getD i 0 ^^^ d.getD (i % 5) 0

/-- ρ and π steps combined: output lane `(X,Y)` is the rotated source lane
`(x, X)` with `x = 3*(Y + 2*X) mod 5`. -/
def keccakRhoPi (s : List Nat) : List Nat :=
  (List.range 25).map fun j =>
    let X := j % 5
    let Y := j / 5
    let x := (3 * (Y + 2 * X)) % 5
    rotl64 (s.getD (x + 5 * X) 0) (keccakRot.getD (x + 5 * X) 0)

/-- χ step. -/
def keccakChi (b : List Nat) : List Nat :=
  (List.range 25).map fun j =>
    let X := j % 5
    let Y := j / 5
    b.getD j 0 ^^^ ((b.getD ((X + 1) % 5 + 5 * Y) 0 ^^^ m64) &&& b.getD ((X + 2) % 5 + 5 * Y) 0)

/-- ι step. -/
def keccakIota (r : Nat) (s : List Nat) : List Nat :=
  s.set 0 (s.getD 0 0 ^^^ keccakRC.getD r 0)

/-- One Keccak-f[1600] round. -/
def keccakRound (s : List Nat) (r : Nat) : List Nat :=
  keccakIota r (keccakChi (keccakRhoPi (keccakTheta s)))

/-- Keccak-f[1600]: 24 rounds. -/
def keccakF (s : List Nat) : List Nat :=
  (List.range 24).foldl keccakRound s

/-- Little-endian bytes to a 64-bit lane. -/
def bytesToLane (bs : ByteL) : Nat :=
  bs.foldr (fun b acc => b + 256 * acc) 0

/-- 64-bit lane to 8 little-endian bytes. -/
def laneToBytes (v : Nat) : ByteL :=
  (List.range 8).map fun i => (v >>> (8 * i)) % 256

/-- Multi-rate padding for rate 136: `0x01 … 0x80` (collapsed to `0x81`
when one byte suffices). -/
def keccakPad (len : Nat) : ByteL :=
  let q := 136 - len % 136
  if q = 1 then [0x81] else 0x01 :: List.replicate (q - 2) 0 ++ [0x80]

/-- Absorb one 136-byte block into the state and permute. -/
def keccakAbsorbBlock (s : List Nat) (block : ByteL) : List Nat :=
  let lanes := (List.range 17).map fun i => bytesToLane ((block.drop (8 * i)).take 8)
  keccakF ((List.range 25).map fun i =>
    if i < 17 then s.getD i 0 ^^^ lanes.getD i 0 else s.getD i 0)

/-- Keccak-256 of a byte string: pad, absorb 136-byte blocks, squeeze the
first 32 bytes. -/
def keccak256 (msg : ByteL) : ByteL :=
  let padded := msg ++ keccakPad msg.length
  let nBlocks := padded.length / 136
  let final := (List.range nBlocks).foldl
    (fun s i => keccakAbsorbBlock s ((padded.drop (136 * i)).take 136)) (List.replicate 25 0)
  laneToBytes (final.getD 0 0) ++ laneToBytes (final.getD 1 0) ++
    laneToBytes (final.getD 2 0) ++ laneToBytes (final.getD 3 0)

/-!
## secp256k1

Modelled from the spec: the elliptic-curve signer/recovery engine is an
external collaborator (`k256`, not part of the source tree); it is
embedded here as textbook secp256k1 arithmetic (Jacobian coordinates,
fuel-bounded double-and-add) so that the known-vector and key-derivation
facts are checkable.
-/

/-- secp256k1 field modulus. -/
def secpP : Nat := 0xFFFFFFFFFFFFFFFFFFFFFFFFFFFFFFFFFFFFFFFFFFFFFFFFFFFFFFFEFFFFFC2F

/-- secp256k1 group order. -/
def secpN : Nat := 0xFFFFFFFFFFFFFFFFFFFFFFFFFFFFFFFEBAAEDCE6AF48A03BBFD25E8CD0364141

/-- Generator x-coordinate. -/
def secpGx : Nat := 0x79BE667EF9DCBBAC55A06295CE870B07029BFCDB2DCE28D959F2815B16F81798

/-- Generator y-coordinate. -/
def secpGy : Nat := 0x483ADA7726A3C4655DA4FBFC0E1108A8FD17B448A68554199C47D08FFB10D4B8

/-- Modular subtraction. -/
def submod (a b m : Nat) : Nat := (a + m - b % m) % m

/-- Fuel-bounded binary modular exponentiation (structural recursion so
the kernel can evaluate it; 256 bits of fuel covers every exponent used). -/
def powmodF : Nat → Nat → Nat → Nat → Nat
  | 0, _, _, _ => 1
  | fuel + 1, b, e, m =>
    if e = 0 then 1 % m
    else
      let h := powmodF fuel (b * b % m) (e / 2) m
      if e % 2 = 1 then h * b % m else h

/-- Modular exponentiation. -/
def powmod (b e m : Nat) : Nat := powmodF 256 b e m

/-- Modular inverse by Fermat. -/
def invmod (a m : Nat) : Nat := powmod a (m - 2) m

/-- A point in Jacobian coordinates; `z = 0` is the point at infinity. -/
structure JPoint where
  x : Nat
  y : Nat
  z : Nat
deriving DecidableEq, Repr

/-- The point at infinity. -/
def jInf : JPoint := ⟨1, 1, 0⟩

/-- Jacobian doubling on secp256k1 (`a = 0`). -/
def jdbl (P : JPoint) : JPoint :=
  if P.z = 0 ∨ P.y = 0 then jInf
  else
    let p := secpP
    let ysq := P.y * P.y % p
    let s := 4 * P.x * ysq % p
    let m := 3 * P.x * P.x % p
    let x3 := submod (m * m % p) (2 * s) p
    let y3 := submod (m * submod s x3 p % p) (8 * ysq * ysq % p) p
    let z3 := 2 * P.y * P.z % p
    ⟨x3, y3, z3⟩

/-- Jacobian addition on secp256k1. -/
def jadd (P Q : JPoint) : JPoint :=
  if P.z = 0 then Q
  else if Q.z = 0 then P
  else
    let p := secpP
    let z1z1 := P.z * P.z % p
    let z2z2 := Q.z * Q.z % p
    let u1 := P.x * z2z2 % p
    let u2 := Q.x * z1z1 % p
    let s1 := P.y * z2z2 % p * Q.z % p
    let s2 := Q.y * z1z1 % p * P.z % p
    if u1 = u2 then
      if s1 ≠ s2 then jInf else jdbl P
    else
      let h := submod u2 u1 p
      let hh := h * h % p
      let hhh := h * hh % p
      let r := submod s2 s1 p
      let v := u1 * hh % p
      let x3 := submod (r * r % p) (hhh + 2 * v) p
      let y3 := submod (r * submod v x3 p % p) (s1 * hhh % p) p
      let z3 := h * P.z % p * Q.z % p
      ⟨x3, y3, z3⟩

/-- Fuel-bounded double-and-add scalar multiplication. -/
def jmulF : Nat → Nat → JPoint → JPoint → JPoint
  | 0, _, _, acc => acc
  | fuel + 1, k, P, acc =>
    if k = 0 then acc
    else jmulF fuel (k / 2) (jdbl P) (if k % 2 = 1 then jadd acc P else acc)

/-- Scalar multiplication `k·P` (256 bits of fuel). -/
def jmul (k : Nat) (P : JPoint) : JPoint := jmulF 256 k P jInf

/-- Jacobian to affine coordinates; `none` at infinity. -/
def jAffine (P : JPoint) : Option (Nat × Nat) :=
  if P.z = 0 then none
  else
    let zi := invmod P.z secpP
    let zi2 := zi * zi % secpP
    some (P.x * zi2 % secpP, P.y * zi2 % secpP * zi % secpP)

/-- A natural as exactly 32 big-endian bytes. -/
def natTo32Bytes (n : Nat) : ByteL :=
  (List.range 32).map fun i => (n >>> (8 * (31 - i))) % 256

/-- Ethereum address of an affine public key: the low 20 bytes of the
keccak-256 hash of the 64-byte uncompressed point. -/
def addressOfPubkey (xy : Nat × Nat) : ByteL :=
  (keccak256 (natTo32Bytes xy.1 ++ natTo32Bytes xy.2)).drop 12

/-- ECDSA public-key recovery: rebuild `R` from `r` and the parity bit,
then `Q = r⁻¹·(s·R − z·G)`.  Fails on out-of-range scalars, a
non-residue `x³ + 7`, or an infinite result — mirroring the external
engine's error cases. -/
def recoverPubkey (r s z : Nat) (yOdd : Bool) : Option (Nat × Nat) :=
  if r = 0 ∨ r ≥ secpN ∨ s = 0 ∨ s ≥ secpN then none
  else
    let alpha := (r * r % secpP * r + 7) % secpP
    let y0 := powmod alpha ((secpP + 1) / 4) secpP
    if y0 * y0 % secpP ≠ alpha then none
    else
      let y := if (y0 % 2 = 1) = yOdd then y0 else secpP - y0
      let rinv := invmod r secpN
      let u1 := submod 0 (z % secpN) secpN * rinv % secpN
      let u2 := s * rinv % secpN
      let Q := jadd (jmul u1 ⟨secpGx, secpGy, 1⟩) (jmul u2 ⟨r, y, 1⟩)
      jAffine Q

/-!
## Signatures and parity (`alloy_primitives::Signature` / `Parity`)

Modelled from the spec: the signature value type lives in an external
crate; the spec fixes it as `{r, s, parity}` with parity tagged
`{Raw(bool) | Eip155(chain_id)}` plus the raw `{27,28}` form the source
file manipulates (`Parity::Parity`, `Parity::NonEip155`, `Parity::Eip155`).
-/

/-- `alloy_primitives::Parity`. `eip155` carries the whole `v` value. -/
inductive Parity where
  | parity (b : Bool)
  | nonEip155 (b : Bool)
  | eip155 (v : Nat)
deriving DecidableEq, Repr

/-- `Parity::to_u64` (the value written on the wire). -/
def Parity.toU64 : Parity → Nat
  | .parity b => if b then 1 else 0
  | .nonEip155 b => if b then 28 else 27
  | .eip155 v => v

/-- `Parity::chain_id`: only an EIP-155 `v ≥ 35` carries a chain id. -/
def Parity.chainId : Parity → Option Nat
  | .eip155 v => if 35 ≤ v then some ((v - 35) / 2) else none
  | _ => none

/-- `Parity::y_parity`. -/
def Parity.yParity : Parity → Bool
  | .parity b => b
  | .nonEip155 b => b
  | .eip155 v => v % 2 = 0

/-- `TryFrom<u64> for Parity`. -/
def Parity.fromU64 (v : Nat) : Option Parity :=
  if v = 0 then some (.parity false)
  else if v = 1 then some (.parity true)
  else if v = 27 then some (.nonEip155 false)
  else if v = 28 then some (.nonEip155 true)
  else if 35 ≤ v then some (.eip155 v)
  else none

/-- `Parity` RLP length (`to_u64` as an integer). -/
def Parity.rlpLength (p : Parity) : Nat := natRlpLength p.toU64

/-- `alloy_primitives::Signature`: `{ r: U256, s: U256, v: Parity }`. -/
structure Signature where
  r : Nat
  s : Nat
  v : Parity
deriving DecidableEq, Repr

/-- `Signature::with_parity`. -/
def Signature.withParity (sig : Signature) (p : Parity) : Signature :=
  { sig with v := p }

/-- `Signature::rlp_vrs_len`. -/
def Signature.rlpVrsLen (sig : Signature) : Nat :=
  sig.v.rlpLength + natRlpLength sig.r + natRlpLength sig.s

/-- `Signature::write_rlp_vrs`: `v`, `r`, `s` in that order. -/
def Signature.writeRlpVrs (sig : Signature) : ByteL :=
  rlpEncNat sig.v.toU64 ++ rlpEncNat sig.r ++ rlpEncNat sig.s

/-- `Signature::decode_rlp_vrs`: parity as a `u64`, then `r` and `s` as
`U256` values. -/
def Signature.decodeRlpVrs (buf : ByteL) : Except RlpError (Signature × ByteL) := do
  let (vRaw, rest1) ← rlpDecNat 8 buf
  match Parity.fromU64 vRaw with
  | none => throw (RlpError.custom "invalid parity value")
  | some p =>
    let (r, rest2) ← rlpDecNat 32 rest1
    let (s, rest3) ← rlpDecNat 32 rest2
    pure (⟨r, s, p⟩, rest3)

/-- `Signature::recover_address_from_prehash`: normalize a high `s`
(keeping the recovery id, as the source does), run the external recovery
engine, keccak-address the public key. -/
def Signature.recoverAddressFromPrehash (sig : Signature) (prehash : ByteL) :
    Option ByteL := do
  let s2 := if sig.s > secpN / 2 then secpN - sig.s else sig.s
  let pk ← recoverPubkey sig.r s2 (beVal prehash) sig.v.yParity
  pure (addressOfPubkey pk)

/-!
## Legacy transactions (`crates/consensus/src/transaction/legacy.rs`)
-/

/-- `alloy_primitives::TxKind`: call target or contract creation. -/
inductive TxKind where
  | create
  | call (addr : ByteL)
deriving DecidableEq, Repr

/-- `TxKind` RLP encoding: an address is a 20-byte string, creation is
the empty string. -/
def TxKind.rlpEncode : TxKind → ByteL
  | .create => [0x80]
  | .call addr => headerEncode ⟨false, addr.length⟩ ++ addr

/-- `TxKind` RLP length. -/
def TxKind.rlpLength : TxKind → Nat
  | .create => 1
  | .call addr => lengthOfLength addr.length + addr.length

/-- `impl Decodable for TxKind`: `0x80` is creation, anything else must
be a 20-byte string (`FixedBytes<20>` rejects other lengths). -/
def TxKind.rlpDecode (buf : ByteL) : Except RlpError (TxKind × ByteL) := do
  match buf with
  | [] => throw RlpError.inputTooShort
  | b :: rest =>
    if b = 0x80 then pure (.create, rest)
    else
      let (bytes, rest2) ← decodeBytesWith false (b :: rest)
      if bytes.length = 20 then pure (.call bytes, rest2)
      else throw RlpError.unexpectedLength

/-- `TxLegacy`. -/
structure TxLegacy where
  chainId : Option Nat
  nonce : Nat
  gasPrice : Nat
  gasLimit : Nat
  -- the source field is named `to`, a reserved word here
  toKind : TxKind
  value : Nat
  input : ByteL
deriving DecidableEq, Repr

namespace TxLegacy

/-- `TxLegacy::rlp_encoded_fields_length`. -/
def rlpEncodedFieldsLength (tx : TxLegacy) : Nat :=
  natRlpLength tx.nonce + natRlpLength tx.gasPrice + natRlpLength tx.gasLimit +
    tx.toKind.rlpLength + natRlpLength tx.value + bytesRlpLength tx.input

/-- `TxLegacy::rlp_encode_fields`: the six fields in schema order. -/
def rlpEncodeFields (tx : TxLegacy) : ByteL :=
  rlpEncNat tx.nonce ++ rlpEncNat tx.gasPrice ++ rlpEncNat tx.gasLimit ++
    tx.toKind.rlpEncode ++ rlpEncNat tx.value ++ rlpEncBytes tx.input

/-- `TxLegacy::rlp_decode_fields`: the six fields in schema order,
`chain_id` left `None`. -/
def rlpDecodeFields (buf : ByteL) : Except RlpError (TxLegacy × ByteL) := do
  let (nonce, r1) ← rlpDecNat 8 buf
  let (gasPrice, r2) ← rlpDecNat 16 r1
  let (gasLimit, r3) ← rlpDecNat 8 r2
  let (toV, r4) ← TxKind.rlpDecode r3
  let (value, r5) ← rlpDecNat 32 r4
  let (input, r6) ← rlpDecBytes r5
  pure (⟨none, nonce, gasPrice, gasLimit, toV, value, input⟩, r6)

/-- `legacy_sig!`: the normalization applied by every signed-form
operation — a raw `Parity(b)` becomes `NonEip155(b)`, every other parity
is passed through unchanged. -/
def legacySig (sig : Signature) : Signature :=
  match sig.v with
  | .parity b => sig.withParity (.nonEip155 b)
  | _ => sig

/-- `RlpEcdsaTx::rlp_header_signed`.  Modelled from the spec: the trait's
provided method is outside the source file; §4.2 fixes the composition as
`header(list, fieldsLength() + 3-tuple signature length)`. -/
def rlpHeaderSigned (tx : TxLegacy) (sig : Signature) : RlpHeader :=
  ⟨true, tx.rlpEncodedFieldsLength + sig.rlpVrsLen⟩

/-- `TxLegacy::rlp_encoded_length_with_signature`. -/
def rlpEncodedLengthWithSignature (tx : TxLegacy) (sig : Signature) : Nat :=
  lengthWithPayload (tx.rlpHeaderSigned (legacySig sig))

/-- `TxLegacy::rlp_encode_signed`: normalize the parity, then list
header, fields, and `(v, r, s)`. -/
def rlpEncodeSigned (tx : TxLegacy) (sig : Signature) : ByteL :=
  let sig := legacySig sig
  headerEncode (tx.rlpHeaderSigned sig) ++ tx.rlpEncodeFields ++ sig.writeRlpVrs

/-- `TxLegacy::rlp_decode_with_signature`: header (must be a list),
fields, trailing `(v, r, s)`, the legacy-parity gate, chain-id recovery
from the parity, and the exact-length check. -/
def rlpDecodeWithSignature (buf : ByteL) :
    Except RlpError ((TxLegacy × Signature) × ByteL) := do
  let (header, rest0) ← headerDecode buf
  if !header.list then throw RlpError.unexpectedString
  else
    let remaining := rest0.length
    let (tx, rest1) ← rlpDecodeFields rest0
    let (sig, rest2) ← Signature.decodeRlpVrs rest1
    match sig.v with
    | .parity _ => throw (RlpError.custom "invalid parity for legacy transaction")
    | _ =>
      let tx := { tx with chainId := sig.v.chainId }
      if rest2.length + header.payloadLength ≠ remaining then
        throw (RlpError.listLengthMismatch header.payloadLength (remaining - rest2.length))
      else
        pure ((tx, sig), rest2)

/-- `TxLegacy::tx_hash_with_type`: keccak of the signed encoding (the
type byte is ignored for legacy). -/
def txHashWithType (tx : TxLegacy) (sig : Signature) (_ty : Nat) : ByteL :=
  keccak256 (tx.rlpEncodeSigned sig)

/-- `RlpEcdsaTx::tx_hash`.  Modelled from the spec: the trait's provided
method is outside the source file; §4.2 fixes the canonical hash as the
hash of the fully-encoded signed byte form. -/
def txHash (tx : TxLegacy) (sig : Signature) : ByteL :=
  tx.txHashWithType sig 0

/-- `TxLegacy::eip155_fields_len`. -/
def eip155FieldsLen (tx : TxLegacy) : Nat :=
  match tx.chainId with
  | none => 0
  | some id => natRlpLength id + 2

/-- `TxLegacy::encode_eip155_signing_fields`: chain id then two
RLP-encoded zero scalars, only when a chain id is present. -/
def encodeEip155SigningFields (tx : TxLegacy) : ByteL :=
  match tx.chainId with
  | none => []
  | some id => rlpEncNat id ++ rlpEncNat 0 ++ rlpEncNat 0

/-- `TxLegacy::encode_for_signing`. -/
def encodeForSigning (tx : TxLegacy) : ByteL :=
  headerEncode ⟨true, tx.rlpEncodedFieldsLength + tx.eip155FieldsLen⟩ ++
    tx.rlpEncodeFields ++ tx.encodeEip155SigningFields

/-- `SignableTransaction::signature_hash`.  Modelled from the spec: the
trait's provided method is outside the source file; §4.3 fixes the
signing hash as the hash of the `encode_for_signing` byte form. -/
def signatureHash (tx : TxLegacy) : ByteL :=
  keccak256 tx.encodeForSigning

end TxLegacy

/-- `Signed<T>` for legacy transactions: `{tx, signature, hash}`. -/
structure SignedTx where
  tx : TxLegacy
  signature : Signature
  hash : ByteL
deriving DecidableEq, Repr

/-- `TxLegacy::into_signed`: normalize a raw `Parity(b)` to
`NonEip155(b)`, compute the canonical hash, seal the triple. -/
def TxLegacy.intoSigned (tx : TxLegacy) (signature : Signature) : SignedTx :=
  let signature :=
    match signature.v with
    | .parity b => signature.withParity (.nonEip155 b)
    | _ => signature
  ⟨tx, signature, tx.txHash signature⟩

/-- `Signed::recover_signer`.  Modelled from the spec: `signed.rs` is
outside the source file; §4.3 fixes it as recomputing the signing hash
and invoking the external recovery primitive on `(signature, hash)`. -/
def SignedTx.recoverSigner (st : SignedTx) : Option ByteL :=
  st.signature.recoverAddressFromPrehash st.tx.signatureHash

/-!
## Receipts and blooms (`crates/consensus/src/receipt/receipts.rs`)
-/

/-- `Eip658Value`.  Modelled from the spec: `status.rs` is outside the
source file; §3 fixes it as the tagged union
`{Success(bool) | PostState(32-byte hash)}`. -/
inductive Eip658Value where
  | eip658 (status : Bool)
  | postState (root : ByteL)
deriving DecidableEq, Repr

/-- `Eip658Value::coerce_status`.  Modelled from the spec: `status.rs` is
outside the source file; the boolean view treats any pre-EIP-658 state
root as success, in agreement with the in-source
`ReceiptWithBloom::status`. -/
def Eip658Value.coerceStatus : Eip658Value → Bool
  | .eip658 b => b
  | .postState _ => true

/-- `Eip658Value` RLP encoding.  Modelled from the spec: a boolean status
encodes as the RLP boolean, a state root as a 32-byte string (§4.4 wire
form). -/
def Eip658Value.rlpEncode : Eip658Value → ByteL
  | .eip658 b => if b then [0x01] else [0x80]
  | .postState root => rlpEncBytes root

/-- `Eip658Value` RLP length. -/
def Eip658Value.rlpLength : Eip658Value → Nat
  | .eip658 _ => 1
  | .postState root => bytesRlpLength root

/-- `Eip658Value` RLP decoding.  Modelled from the spec: the inverse of
the wire form above — an empty or `0/1` byte string is a boolean status,
a 32-byte string is a state root. -/
def Eip658Value.rlpDecode (buf : ByteL) : Except RlpError (Eip658Value × ByteL) := do
  let (bytes, rest) ← decodeBytesWith false buf
  match bytes with
  | [] => pure (.eip658 false, rest)
  | [0] => pure (.eip658 false, rest)
  | [1] => pure (.eip658 true, rest)
  | _ =>
    if bytes.length = 32 then pure (.postState bytes, rest)
    else throw (RlpError.custom "invalid eip658 status")

/-- `alloy_primitives::Log`.  Modelled from the spec: an emitting
address, topic words, and opaque data (§4.4). -/
structure Log where
  address : ByteL
  topics : List ByteL
  data : ByteL
deriving DecidableEq, Repr

/-- `Log` RLP payload length: address, topics list, data. -/
def Log.rlpPayloadLength (l : Log) : Nat :=
  bytesRlpLength l.address +
    (lengthOfLength (((l.topics.map bytesRlpLength).sum)) +
      (l.topics.map bytesRlpLength).sum) +
    bytesRlpLength l.data

/-- `Log` RLP length. -/
def Log.rlpLength (l : Log) : Nat :=
  lengthOfLength l.rlpPayloadLength + l.rlpPayloadLength

/-- `Log` RLP encoding: the list `[address, topics, data]`, the topics
themselves a list of 32-byte strings. -/
def Log.rlpEncode (l : Log) : ByteL :=
  headerEncode ⟨true, l.rlpPayloadLength⟩ ++
    rlpEncBytes l.address ++
    (headerEncode ⟨true, (l.topics.map bytesRlpLength).sum⟩ ++
      (l.topics.map rlpEncBytes).flatten) ++
    rlpEncBytes l.data

/-- Decode items one after another from an isolated list payload until it
is exhausted (`impl Decodable for Vec<T>`).  The fuel is the payload
length: every successful RLP item consumes at least one byte. -/
def decodeItemsF {T : Type} (decT : ByteL → Except RlpError (T × ByteL)) :
    Nat → ByteL → Except RlpError (List T)
  | _, [] => pure []
  | 0, _ :: _ => throw RlpError.inputTooShort
  | fuel + 1, b :: rest => do
    let (t, rest2) ← decT (b :: rest)
    let ts ← decodeItemsF decT fuel rest2
    pure (t :: ts)

/-- `impl Decodable for Vec<T>`: a list header, then items decoded from
the isolated payload until it is exhausted. -/
def vecRlpDecode {T : Type} (decT : ByteL → Except RlpError (T × ByteL))
    (buf : ByteL) : Except RlpError (List T × ByteL) := do
  let (payload, rest) ← decodeBytesWith true buf
  let ts ← decodeItemsF decT payload.length payload
  pure (ts, rest)

/-- 32-byte word (`B256`) RLP decoding: a string payload of exactly 32
bytes. -/
def b256RlpDecode (buf : ByteL) : Except RlpError (ByteL × ByteL) := do
  let (bytes, rest) ← decodeBytesWith false buf
  if bytes.length = 32 then pure (bytes, rest)
  else throw RlpError.unexpectedLength

/-- 20-byte address RLP decoding: a string payload of exactly 20 bytes. -/
def addressRlpDecode (buf : ByteL) : Except RlpError (ByteL × ByteL) := do
  let (bytes, rest) ← decodeBytesWith false buf
  if bytes.length = 20 then pure (bytes, rest)
  else throw RlpError.unexpectedLength

/-- `Log` RLP decoding: list header, address, topics, data, with the
derived exact-length check. -/
def Log.rlpDecode (buf : ByteL) : Except RlpError (Log × ByteL) := do
  let (head, b0) ← headerDecode buf
  if !head.list then throw RlpError.unexpectedString
  else
    let startedLen := b0.length
    let (address, b1) ← addressRlpDecode b0
    let (topics, b2) ← vecRlpDecode b256RlpDecode b1
    let (data, b3) ← rlpDecBytes b2
    let consumed := startedLen - b3.length
    if consumed ≠ head.payloadLength then
      throw (RlpError.listLengthMismatch head.payloadLength consumed)
    else pure (⟨address, topics, data⟩, b3)

/-- `Receipt<Log>`. -/
structure Receipt where
  status : Eip658Value
  cumulativeGasUsed : Nat
  logs : List Log
deriving DecidableEq, Repr

/-- The 2048-bit bloom filter as 256 bytes, most-significant byte first. -/
def bloomZero : ByteL := List.replicate 256 0

/-- `Bloom::m3_2048_hashed` bit update: bit `b` sets bit `b % 8` of byte
`255 - b/8`. -/
def bloomSetBit (bloom : ByteL) (bit : Nat) : ByteL :=
  bloom.set (255 - bit / 8) (bloom.getD (255 - bit / 8) 0 ||| (1 <<< (bit % 8)))

/-- `Bloom::m3_2048`: keccak the item and set the three bit positions
drawn from hash byte pairs `(0,1)`, `(2,3)`, `(4,5)` masked to 11 bits. -/
def bloomM3 (bloom : ByteL) (data : ByteL) : ByteL :=
  let h := keccak256 data
  [0, 2, 4].foldl
    (fun bl i => bloomSetBit bl ((h.getD (i + 1) 0 + (h.getD i 0 <<< 8)) &&& 0x7FF))
    bloom

/-- `Bloom::accrue_log`: the emitting address, then each topic. -/
def bloomAccrueLog (bloom : ByteL) (l : Log) : ByteL :=
  l.topics.foldl bloomM3 (bloomM3 bloom l.address)

/-- `Receipt::bloom_slow`: accrue every log into an empty filter. -/
def Receipt.bloomSlow (r : Receipt) : ByteL :=
  r.logs.foldl bloomAccrueLog bloomZero

/-- `TxReceipt::status` on `Receipt` (via `coerce_status`). -/
def Receipt.statusBool (r : Receipt) : Bool :=
  r.status.coerceStatus

/-- `ReceiptWithBloom<Log>`. -/
structure ReceiptWithBloom where
  receipt : Receipt
  logsBloom : ByteL
deriving DecidableEq, Repr

/-- `impl From<Receipt> for ReceiptWithBloom`: compute `bloom_slow` once
and cache it. -/
def ReceiptWithBloom.ofReceipt (r : Receipt) : ReceiptWithBloom :=
  ⟨r, r.bloomSlow⟩

/-- `Receipt::with_bloom`. -/
def Receipt.withBloom (r : Receipt) : ReceiptWithBloom :=
  ReceiptWithBloom.ofReceipt r

/-- `TxReceipt::status` on `ReceiptWithBloom`: success, or any
pre-EIP-658 state root. -/
def ReceiptWithBloom.statusBool (rb : ReceiptWithBloom) : Bool :=
  match rb.receipt.status with
  | .eip658 true => true
  | .postState _ => true
  | _ => false

/-- `ReceiptWithBloom::payload_len`. -/
def ReceiptWithBloom.payloadLen (rb : ReceiptWithBloom) : Nat :=
  rb.receipt.status.rlpLength + natRlpLength rb.receipt.cumulativeGasUsed +
    bytesRlpLength rb.logsBloom +
    (lengthOfLength ((rb.receipt.logs.map Log.rlpLength).sum) +
      (rb.receipt.logs.map Log.rlpLength).sum)

/-- `ReceiptWithBloom::encode_fields`: receipt list header, status,
cumulative gas, bloom, logs. -/
def ReceiptWithBloom.encodeFields (rb : ReceiptWithBloom) : ByteL :=
  headerEncode ⟨true, rb.payloadLen⟩ ++
    rb.receipt.status.rlpEncode ++
    rlpEncNat rb.receipt.cumulativeGasUsed ++
    rlpEncBytes rb.logsBloom ++
    (headerEncode ⟨true, (rb.receipt.logs.map Log.rlpLength).sum⟩ ++
      (rb.receipt.logs.map Log.rlpEncode).flatten)

/-- Bloom filter RLP decoding: a string payload of exactly 256 bytes. -/
def bloomRlpDecode (buf : ByteL) : Except RlpError (ByteL × ByteL) := do
  let (bytes, rest) ← decodeBytesWith false buf
  if bytes.length = 256 then pure (bytes, rest)
  else throw RlpError.unexpectedLength

/-- `ReceiptWithBloom::decode_receipt`: header (must be a list), the four
fields, then the consumed-equals-declared check. -/
def ReceiptWithBloom.decodeReceipt (buf : ByteL) :
    Except RlpError (ReceiptWithBloom × ByteL) := do
  let (head, b0) ← headerDecode buf
  if !head.list then throw RlpError.unexpectedString
  else
    let startedLen := b0.length
    let (success, b1) ← Eip658Value.rlpDecode b0
    let (cumulativeGasUsed, b2) ← rlpDecNat 16 b1
    let (bloom, b3) ← bloomRlpDecode b2
    let (logs, b4) ← vecRlpDecode Log.rlpDecode b3
    let consumed := startedLen - b4.length
    if consumed ≠ head.payloadLength then
      throw (RlpError.listLengthMismatch head.payloadLength consumed)
    else pure (⟨⟨success, cumulativeGasUsed, logs⟩, bloom⟩, b4)

/-- `Receipts<T>`: the two-dimensional receipt collection. -/
structure Receipts (T : Type) where
  receiptVec : List (List T)
deriving DecidableEq, Repr

/-- `Receipts::len`. -/
def Receipts.len {T : Type} (rs : Receipts T) : Nat := rs.receiptVec.length

/-- `Receipts::root_slow`: nothing out of range, otherwise the
caller-supplied aggregation applied to that block's receipts. -/
def Receipts.rootSlow {T : Type} (rs : Receipts T) (index : Nat)
    (f : List T → ByteL) : Option ByteL :=
  (rs.receiptVec.get? index).map f

/-!
## Wallet key material (`crates/signer-wallet/src/private_key.rs`)
-/

/-- `alloy_signer::utils::secret_key_to_address`.  Modelled from the
spec: the helper lives outside the source file; §3 fixes the address as
`deriveAddress(signing_key)` — the keccak address of the secp256k1
public key. -/
def secretKeyToAddress (k : Nat) : ByteL :=
  addressOfPubkey ((jAffine (jmul k ⟨secpGx, secpGy, 1⟩)).getD (0, 0))

/-- `WalletError`: wraps signature-crate and hex errors. -/
inductive WalletError where
  | ecdsaError
  | hexError
  | keystoreError
deriving DecidableEq, Repr

/-- `Wallet<SigningKey>`: the signing key is its scalar. -/
structure Wallet where
  signer : Nat
  address : ByteL
  chainId : Option Nat
deriving DecidableEq, Repr

/-- `Wallet::new_with_signer`.  Modelled from the spec: the constructor
lives outside the source file; it stores the three fields as given. -/
def Wallet.newWithSigner (signer : Nat) (address : ByteL)
    (chainId : Option Nat) : Wallet :=
  ⟨signer, address, chainId⟩

/-- `Wallet::from_signing_key`: derive the address from the key. -/
def Wallet.fromSigningKey (signer : Nat) : Wallet :=
  Wallet.newWithSigner signer (secretKeyToAddress signer) none

/-- `SigningKey::from_bytes` (k256, external): a 32-byte big-endian
scalar, rejecting zero and non-canonical values with a curve error. -/
def signingKeyFromBytes (bytes : ByteL) : Except WalletError Nat :=
  if bytes.length ≠ 32 then throw WalletError.ecdsaError
  else
    let k := beVal bytes
    if k = 0 ∨ k ≥ secpN then throw WalletError.ecdsaError
    else pure k

/-- `SigningKey::from_slice` (k256, external): slices up to 32 bytes are
left-padded with zeroes. -/
def signingKeyFromSlice (bytes : ByteL) : Except WalletError Nat :=
  if bytes.length > 32 then throw WalletError.ecdsaError
  else signingKeyFromBytes (List.replicate (32 - bytes.length) 0 ++ bytes)

/-- `Wallet::from_bytes` / `from_field_bytes`: exactly 32 bytes. -/
def Wallet.fromBytes (bytes : ByteL) : Except WalletError Wallet :=
  (signingKeyFromBytes bytes).map Wallet.fromSigningKey

/-- `Wallet::from_field_bytes` (identical to `from_bytes`). -/
def Wallet.fromFieldBytes (bytes : ByteL) : Except WalletError Wallet :=
  (signingKeyFromBytes bytes).map Wallet.fromSigningKey

/-- `Wallet::from_slice`. -/
def Wallet.fromSlice (bytes : ByteL) : Except WalletError Wallet :=
  (signingKeyFromSlice bytes).map Wallet.fromSigningKey

/-- `SigningKey::random` (k256, external).  Modelled from the spec: the
injected random source is represented by the entropy it yields; rejection
sampling always lands on a canonical nonzero scalar. -/
def randomScalar (entropy : Nat) : Nat := entropy % (secpN - 1) + 1

/-- `Wallet::random_with`. -/
def Wallet.randomWith (entropy : Nat) : Wallet :=
  Wallet.fromSigningKey (randomScalar entropy)

/-- One hex digit. -/
def hexDigit (c : Char) : Option Nat :=
  if '0' ≤ c ∧ c ≤ '9' then some (c.toNat - '0'.toNat)
  else if 'a' ≤ c ∧ c ≤ 'f' then some (c.toNat - 'a'.toNat + 10)
  else if 'A' ≤ c ∧ c ≤ 'F' then some (c.toNat - 'A'.toNat + 10)
  else none

/-- Hex pairs to bytes. -/
def hexBytes : List Char → Option ByteL
  | [] => some []
  | [_] => none
  | c1 :: c2 :: rest => do
    let h ← hexDigit c1
    let l ← hexDigit c2
    let bs ← hexBytes rest
    pure ((h * 16 + l) :: bs)

/-- `hex::decode_to_array::<32>` with optional `0x`: exactly 64 hex
digits. -/
def hexDecode32 (s : List Char) : Except WalletError ByteL :=
  let digits := if s.take 2 = ['0', 'x'] then s.drop 2 else s
  if digits.length ≠ 64 then throw WalletError.hexError
  else
    match hexBytes digits with
    | some bs => pure bs
    | none => throw WalletError.hexError

/-- `FromStr for Wallet`: hex-decode 32 bytes, then `from_slice`. -/
def Wallet.fromStr (s : List Char) : Except WalletError Wallet := do
  let bytes ← hexDecode32 s
  Wallet.fromSlice bytes

/-- `Wallet::new_keystore`.  Modelled from the spec: the keystore
collaborator's `encrypt` output `(secretBytes, uuid)` is passed in; the
wallet is built from the secret via `from_slice`. -/
def Wallet.newKeystore (secret : ByteL) (uuid : String) :
    Except WalletError (Wallet × String) := do
  let w ← Wallet.fromSlice secret
  pure (w, uuid)

/-- `Wallet::decrypt_keystore`.  Modelled from the spec: the keystore
collaborator's `decrypt` output is passed in. -/
def Wallet.decryptKeystore (secret : ByteL) : Except WalletError Wallet :=
  Wallet.fromSlice secret

/-- `Wallet::encrypt_keystore`.  Modelled from the spec: the supplied
private key bytes are stored through the collaborator and the wallet is
built from the same bytes via `from_slice`. -/
def Wallet.encryptKeystore (pk : ByteL) (uuid : String) :
    Except WalletError (Wallet × String) := do
  let w ← Wallet.fromSlice pk
  pure (w, uuid)

/-- A well-formed call target: a 20-byte address of real bytes. -/
def TxKind.wf : TxKind → Prop
  | .create => True
  | .call a => a.length = 20 ∧ ∀ b ∈ a, b < 256

instance (k : TxKind) : Decidable k.wf := by
  cases k <;> simp only [TxKind.wf] <;> infer_instance

/-- The legacy parity discipline relating a stored chain id to a
signature parity: a raw `Parity` is never stored; an EIP-155 parity is a
`u64` value `v ≥ 35` whose chain id matches the stored one; a
pre-EIP-155 parity implies no chain id. -/
def parityMatchesChainId (c : Option Nat) : Parity → Prop
  | .parity _ => False
  | .nonEip155 _ => c = none
  | .eip155 v => 35 ≤ v ∧ v < 2 ^ 64 ∧ c = some ((v - 35) / 2)

instance (c : Option Nat) (p : Parity) : Decidable (parityMatchesChainId c p) := by
  cases p <;> simp only [parityMatchesChainId] <;> infer_instance

/-- The validity envelope for a legacy signed transaction value: field
widths from the Rust types, real byte values, and the legacy parity
discipline. -/
def LegacyValid (tx : TxLegacy) (sig : Signature) : Prop :=
  tx.nonce < 2 ^ 64 ∧ tx.gasPrice < 2 ^ 128 ∧ tx.gasLimit < 2 ^ 64 ∧
  tx.value < 2 ^ 256 ∧ tx.toKind.wf ∧
  (∀ b ∈ tx.input, b < 256) ∧ tx.input.length < 2 ^ 32 ∧
  sig.r < 2 ^ 256 ∧ sig.s < 2 ^ 256 ∧
  parityMatchesChainId tx.chainId sig.v

instance (tx : TxLegacy) (sig : Signature) : Decidable (LegacyValid tx sig) := by
  unfold LegacyValid
  infer_instance

/-- Parity values a legacy wire form can carry. -/
def Parity.legacyWf : Parity → Prop
  | .eip155 v => 35 ≤ v ∧ v < 2 ^ 64
  | _ => True

/-- Whether a parity carries the EIP-155 chain-binding form. -/
def isEip155 : Parity → Bool
  | .eip155 _ => true
  | _ => false

/-- The known-vector transaction input data. -/
def c4input : ByteL := [0xf7, 0xd8, 0xc8, 0x83, 0x00, 0x00, 0x00, 0x00, 0x00, 0x00, 0x00, 0x00, 0x00, 0x00, 0x00, 0x00, 0x00, 0x00, 0x00, 0x00, 0x00, 0x00, 0x00, 0x00, 0x00, 0x00, 0x00, 0x00, 0x00, 0x00, 0x00, 0x00, 0x00, 0x0c, 0xee, 0x61, 0x00, 0x00, 0x00, 0x00, 0x00, 0x00, 0x00, 0x00, 0x00, 0x00, 0x00, 0x00, 0x00, 0x00, 0x00, 0x00, 0x00, 0x00, 0x00, 0x00, 0x00, 0x00, 0x00, 0x00, 0x00, 0x00, 0x00, 0x00, 0x00, 0x0a, 0xc3, 0xe1]

/-- The known-vector call target. -/
def c4addr : ByteL := [0x06, 0x01, 0x2c, 0x8c, 0xf9, 0x7b, 0xea, 0xd5, 0xde, 0xae, 0x23, 0x70, 0x70, 0xf9, 0x58, 0x7f, 0x8e, 0x7a, 0x26, 0x6d]

/-- The known-vector expected transaction hash. -/
def c4hash : ByteL := [0xbb, 0x3a, 0x33, 0x6e, 0x3f, 0x82, 0x3e, 0xc1, 0x81, 0x97, 0xf1, 0xe1, 0x3e, 0xe8, 0x75, 0x70, 0x0f, 0x08, 0xf0, 0x3e, 0x2c, 0xab, 0x75, 0xf0, 0xd0, 0xb1, 0x18, 0xda, 0xbb, 0x44, 0xcb, 0xa0]

/-- The known-vector expected signer address. -/
def c4signer : ByteL := [0x39, 0x81, 0x37, 0x38, 0x3b, 0x3d, 0x25, 0xc9, 0x28, 0x98, 0xc6, 0x56, 0x69, 0x6e, 0x41, 0x95, 0x0e, 0x47, 0x31, 0x6b]

/-- The known-vector transaction. -/
def c4tx : TxLegacy :=
  ⟨some 1, 0x18, 0xfa56ea00, 119902, .call c4addr, 0x1c6bf526340000, c4input⟩

/-- The known-vector signature (`v = 37`, the EIP-155 form for chain 1). -/
def c4sig : Signature :=
  ⟨0x2a378831cf81d99a3f06a18ae1b6ca366817ab4d88a70053c41d7a8f0368e031,
   0x450d831a05b6e418724436c05c155e0a1b7b921015d0fbc2f667aed709ac4fb5, .eip155 37⟩

/-- An EIP-155 transaction (chain id 1) used to exhibit the parity
normalization behaviour. -/
def c1tx : TxLegacy := ⟨some 1, 0, 0, 0, .create, 0, []⟩

/-- A raw-parity (`y = 0`, wire `v = 0`) signature, as an external signer
produces before chain-id adjustment. -/
def c1sigRaw : Signature := ⟨1, 1, .parity false⟩

/-- The same signature in the raw 27-equivalent form. -/
def c1sigNon : Signature := ⟨1, 1, .nonEip155 false⟩

/-- The same signature in the EIP-155 form for chain id 1 (`v = 37`). -/
def c1sigEip : Signature := ⟨1, 1, .eip155 37⟩

/-- A helper receipt with one log, for concrete instantiations. -/
def receiptOne : Receipt :=
  ⟨.eip658 true, 1000, [⟨c4addr, [c4hash], [0x01, 0x02]⟩]⟩

/-- A second helper receipt, no logs. -/
def receiptTwoA : Receipt := ⟨.eip658 false, 2000, []⟩

/-- A third helper receipt, no logs. -/
def receiptTwoB : Receipt := ⟨.postState c4hash, 3000, []⟩

/-- A collection of two blocks holding one and two receipts. -/
def receiptsTwoBlocks : Receipts Receipt :=
  ⟨[[receiptOne], [receiptTwoA, receiptTwoB]]⟩

/-- The count-style aggregation of the `root_slow` tests: a 32-byte word
whose last byte is the number of receipts. -/
def countFn (rs : List Receipt) : ByteL :=
  List.replicate 31 0 ++ [rs.length]

/-- 32 bytes encoding the scalar 1 (the classic test signing key). -/
def keyOneBytes : ByteL := List.replicate 31 0 ++ [1]

end Alloy

/-! ## Lemmas: big-endian bytes -/

namespace Alloy

theorem bindOk {ε α β : Type} (a : α) (f : α → Except ε β) :
    (Except.ok a : Except ε α) >>= f = f a := rfl

theorem bindErr {ε α β : Type} (e : ε) (f : α → Except ε β) :
    (Except.error e : Except ε α) >>= f = Except.error e := rfl

theorem pureIsOk {ε α : Type} (a : α) : (pure a : Except ε α) = Except.ok a := rfl

theorem throwIsErr {ε α : Type} (e : ε) : (throw e : Except ε α) = Except.error e := rfl

theorem beBytesF_zero (fuel : Nat) : beBytesF fuel 0 = [] := by
  cases fuel <;> simp [beBytesF]

theorem beVal_concat (l : ByteL) (b : Nat) : beVal (l ++ [b]) = beVal l * 256 + b := by
  simp [beVal, List.foldl_append]

theorem beBytesF_length_le {fuel k n : Nat} (hk : k ≤ fuel) (h : n < 256 ^ k) :
    (beBytesF fuel n).length ≤ k := by
  induction fuel generalizing k n with
  | zero => simp [beBytesF]
  | succ fuel ih =>
    by_cases hn : n = 0
    · simp [beBytesF, hn]
    · have hk1 : 1 ≤ k := by
        rcases Nat.eq_zero_or_pos k with h0 | h1
        · subst h0; simp at h; omega
        · exact h1
      have hdiv : n / 256 < 256 ^ (k - 1) := by
        have hpow : 256 * 256 ^ (k - 1) = 256 ^ k := by
          rw [← pow_succ']
          congr 1
          omega
        exact Nat.div_lt_of_lt_mul (by omega)
      have := ih (k := k - 1) (n := n / 256) (by omega) hdiv
      simp only [beBytesF, hn, if_false, List.length_append, List.length_cons,
        List.length_nil]
      omega

theorem beVal_beBytesF {fuel n : Nat} (h : n < 256 ^ fuel) :
    beVal (beBytesF fuel n) = n := by
  induction fuel generalizing n with
  | zero =>
    simp at h
    subst h
    simp [beBytesF, beVal]
  | succ fuel ih =>
    by_cases hn : n = 0
    · simp [beBytesF, hn, beVal]
    · have hdiv : n / 256 < 256 ^ fuel := by
        have hpow : 256 * 256 ^ fuel = 256 ^ (fuel + 1) := (pow_succ' 256 fuel).symm
        exact Nat.div_lt_of_lt_mul (by omega)
      simp only [beBytesF, hn, if_false]
      rw [beVal_concat, ih hdiv]
      omega

theorem beBytesF_head_ne_zero {fuel n : Nat} (hn : n ≠ 0) (h : n < 256 ^ fuel) :
    (beBytesF fuel n).head? ≠ some 0 := by
  induction fuel generalizing n with
  | zero =>
    simp at h
    exact absurd h hn
  | succ fuel ih =>
    simp only [beBytesF, hn, if_false]
    by_cases hq : n / 256 = 0
    · rw [hq, beBytesF_zero]
      have hlt : n < 256 := by
        rcases Nat.lt_or_ge n 256 with h1 | h1
        · exact h1
        · have h2 : 1 ≤ n / 256 := (Nat.one_le_div_iff (by norm_num)).mpr h1
          omega
      have hmod : n % 256 = n := Nat.mod_eq_of_lt hlt
      simp [hmod, hn]
    · have hdiv : n / 256 < 256 ^ fuel := by
        have hpow : 256 * 256 ^ fuel = 256 ^ (fuel + 1) := (pow_succ' 256 fuel).symm
        exact Nat.div_lt_of_lt_mul (by omega)
      have hne : beBytesF fuel (n / 256) ≠ [] := by
        cases fuel with
        | zero =>
          simp at hdiv
          exact absurd hdiv hq
        | succ f => simp [beBytesF, hq]
      cases hbb : beBytesF fuel (n / 256) with
      | nil => exact absurd hbb hne
      | cons a l =>
        simp only [List.cons_append, List.head?]
        have hh := ih hq hdiv
        rw [hbb] at hh
        simpa using hh

theorem beBytesF_ne_nil {fuel n : Nat} (hn : n ≠ 0) (hf : 0 < fuel) :
    beBytesF fuel n ≠ [] := by
  cases fuel with
  | zero => omega
  | succ f => simp [beBytesF, hn]

theorem beBytes_length_le {k n : Nat} (hk : k ≤ 64) (h : n < 256 ^ k) :
    (beBytes n).length ≤ k :=
  beBytesF_length_le hk h

theorem beVal_beBytes {n : Nat} (h : n < 256 ^ 64) : beVal (beBytes n) = n :=
  beVal_beBytesF h

theorem beBytes_head_ne_zero {n : Nat} (hn : n ≠ 0) (h : n < 256 ^ 64) :
    (beBytes n).head? ≠ some 0 :=
  beBytesF_head_ne_zero hn h

theorem beBytes_ne_nil {n : Nat} (hn : n ≠ 0) : beBytes n ≠ [] :=
  beBytesF_ne_nil hn (by omega)

theorem beBytes_length_pos {n : Nat} (hn : n ≠ 0) : 1 ≤ (beBytes n).length := by
  have := beBytes_ne_nil hn
  cases h : beBytes n with
  | nil => exact absurd h this
  | cons a l => simp

theorem lt_pow256_64 {pl : Nat} (h : pl < 2 ^ 64) : pl < 256 ^ 64 := by
  have hh : (2 : Nat) ^ 64 ≤ 256 ^ 64 := Nat.pow_le_pow_left (by omega) 64
  omega

/-! ## Lemmas: header round-trip -/

theorem headerDecode_headerEncode (l : Bool) (pl : Nat) (rest : ByteL)
    (hpl : pl < 2 ^ 64) (hrest : pl ≤ rest.length)
    (hcanon : l = false → pl = 1 → ∃ c cs, rest = c :: cs ∧ 0x80 ≤ c) :
    headerDecode (headerEncode ⟨l, pl⟩ ++ rest) = Except.ok (⟨l, pl⟩, rest) := by
  by_cases h56 : pl < 56
  · have henc : headerEncode ⟨l, pl⟩ = [(if l then 0xC0 else 0x80) + pl] := by
      simp [headerEncode, h56]
    rw [henc]
    cases l with
    | true =>
      simp only [if_true, List.cons_append, List.nil_append, headerDecode]
      rw [if_neg (by omega), if_neg (by omega), if_neg (by omega), if_pos (by omega)]
      have : 0xC0 + pl - 0xC0 = pl := by omega
      rw [this, if_neg (by omega)]
      rfl
    | false =>
      by_cases h1 : pl = 1
      · obtain ⟨c, cs, hrq, hc⟩ := hcanon rfl h1
        subst h1
        subst hrq
        simp only [if_false, List.cons_append, List.nil_append, headerDecode,
          Bool.false_eq_true]
        rw [if_neg (by omega), if_pos (by omega)]
        have h11 : 0x80 + 1 - 0x80 = 1 := by omega
        rw [h11]
        simp only [if_true]
        rw [if_neg (by omega), if_neg (by simp)]
        rfl
      · simp only [if_false, List.cons_append, List.nil_append, headerDecode,
          Bool.false_eq_true]
        rw [if_neg (by omega), if_pos (by omega)]
        have : 0x80 + pl - 0x80 = pl := by omega
        rw [this, if_neg (by omega), if_neg (by omega)]
        rfl
  · -- long form
    have hne : pl ≠ 0 := by omega
    have hL1 : 1 ≤ (beBytes pl).length := beBytes_length_pos hne
    have hL8 : (beBytes pl).length ≤ 8 := beBytes_length_le (by omega) (by
      have h88 : (256 : Nat) ^ 8 = 2 ^ 64 := by norm_num
      omega)
    have henc : headerEncode ⟨l, pl⟩ =
        ((if l then 0xF7 else 0xB7) + (beBytes pl).length) :: beBytes pl := by
      simp [headerEncode, h56]
    rw [henc]
    have htake : (beBytes pl ++ rest).take (beBytes pl).length = beBytes pl := by
      simp [List.take_append]
    have hdrop : (beBytes pl ++ rest).drop (beBytes pl).length = rest := by
      simp [List.drop_append]
    cases l with
    | true =>
      simp only [if_true, List.cons_append, headerDecode]
      rw [if_neg (by omega), if_neg (by omega), if_neg (by omega), if_neg (by omega)]
      have harith : 0xF7 + (beBytes pl).length - 0xF7 = (beBytes pl).length := by omega
      rw [harith, if_neg (by simp)]
      rw [htake, hdrop]
      rw [if_neg (beBytes_head_ne_zero hne (lt_pow256_64 hpl))]
      rw [beVal_beBytes (lt_pow256_64 hpl)]
      rw [if_neg (by omega), if_neg (by omega)]
      rfl
    | false =>
      simp only [if_false, List.cons_append, headerDecode, Bool.false_eq_true]
      rw [if_neg (by omega), if_neg (by omega), if_pos (by omega)]
      have harith : 0xB7 + (beBytes pl).length - 0xB7 = (beBytes pl).length := by omega
      rw [harith, if_neg (by simp)]
      rw [htake, hdrop]
      rw [if_neg (beBytes_head_ne_zero hne (lt_pow256_64 hpl))]
      rw [beVal_beBytes (lt_pow256_64 hpl)]
      rw [if_neg (by omega), if_neg (by omega)]
      rfl

/-- Truncated list payload: the header reads back but the remaining-length
check fails. -/
theorem headerDecode_truncated (pl : Nat) (rest : ByteL) (hpl : pl < 2 ^ 64)
    (hrest : rest.length < pl) :
    headerDecode (headerEncode ⟨true, pl⟩ ++ rest) = Except.error RlpError.inputTooShort := by
  by_cases h56 : pl < 56
  · have henc : headerEncode ⟨true, pl⟩ = [0xC0 + pl] := by
      simp [headerEncode, h56]
    rw [henc]
    simp only [List.cons_append, List.nil_append, headerDecode]
    rw [if_neg (by omega), if_neg (by omega), if_neg (by omega), if_pos (by omega)]
    have harith : 0xC0 + pl - 0xC0 = pl := by omega
    rw [harith, if_pos (by omega)]
    rfl
  · have hne : pl ≠ 0 := by omega
    have hL1 : 1 ≤ (beBytes pl).length := beBytes_length_pos hne
    have hL8 : (beBytes pl).length ≤ 8 := beBytes_length_le (by omega) (by
      have h88 : (256 : Nat) ^ 8 = 2 ^ 64 := by norm_num
      omega)
    have henc : headerEncode ⟨true, pl⟩ =
        (0xF7 + (beBytes pl).length) :: beBytes pl := by
      simp [headerEncode, h56]
    rw [henc]
    have htake : (beBytes pl ++ rest).take (beBytes pl).length = beBytes pl := by
      simp [List.take_append]
    have hdrop : (beBytes pl ++ rest).drop (beBytes pl).length = rest := by
      simp [List.drop_append]
    simp only [List.cons_append, headerDecode]
    rw [if_neg (by omega), if_neg (by omega), if_neg (by omega), if_neg (by omega)]
    have harith : 0xF7 + (beBytes pl).length - 0xF7 = (beBytes pl).length := by omega
    rw [harith, if_neg (by simp)]
    rw [htake, hdrop]
    rw [if_neg (beBytes_head_ne_zero hne (lt_pow256_64 hpl))]
    rw [beVal_beBytes (lt_pow256_64 hpl)]
    rw [if_neg (by omega), if_pos hrest]
    rfl

/-! ## Lemmas: scalar and byte-string round-trips -/

theorem rlpDecBytes_rlpEncBytes (data rest : ByteL) (hlen : data.length < 2 ^ 64) :
    rlpDecBytes (rlpEncBytes data ++ rest) = Except.ok (data, rest) := by
  by_cases hc : data.length = 1 ∧ data.headI < 0x80
  · obtain ⟨c, rfl⟩ : ∃ c, data = [c] := List.length_eq_one.mp hc.1
    have hcl : c < 0x80 := by simpa [List.headI] using hc.2
    simp only [rlpEncBytes, if_pos hc, rlpDecBytes, decodeBytesWith,
      List.cons_append, List.nil_append]
    simp only [headerDecode, if_pos (by omega : c ≤ 0x7F)]
    simp [bindOk, pureIsOk]
  · simp only [rlpEncBytes, if_neg hc, rlpDecBytes, decodeBytesWith, List.append_assoc]
    rw [headerDecode_headerEncode false data.length (data ++ rest) hlen
      (by simp) ?canon]
    case canon =>
      intro _ h1
      obtain ⟨c, rfl⟩ : ∃ c, data = [c] := List.length_eq_one.mp h1
      refine ⟨c, rest, by simp, ?_⟩
      by_contra hlt
      exact hc ⟨h1, by simpa [List.headI] using Nat.lt_of_not_le hlt⟩
    have htake : (data ++ rest).take data.length = data := by
      simp [List.take_append]
    have hdrop : (data ++ rest).drop data.length = rest := by
      simp [List.drop_append]
    simp [bindOk, pureIsOk, htake, hdrop]

theorem rlpDecNat_rlpEncNat (maxB n : Nat) (rest : ByteL) (hmax : maxB ≤ 55)
    (hn : n < 256 ^ maxB) :
    rlpDecNat maxB (rlpEncNat n ++ rest) = Except.ok (n, rest) := by
  have hn64 : n < 256 ^ 64 := by
    have hmono : (256 : Nat) ^ maxB ≤ 256 ^ 64 := Nat.pow_le_pow_right (by omega) (by omega)
    omega
  by_cases h0 : n = 0
  · subst h0
    have henc : rlpEncNat 0 = [0x80] := by simp [rlpEncNat]
    rw [henc]
    simp only [List.cons_append, List.nil_append, rlpDecNat, decodeBytesWith,
      headerDecode]
    rw [if_neg (by omega), if_pos (by omega)]
    have harith : (0x80 : Nat) - 0x80 = 0 := by omega
    rw [harith]
    rw [if_neg (by omega), if_neg (by omega)]
    simp [bindOk, pureIsOk, beVal]
  · by_cases h1 : n < 0x80
    · have hmax1 : 1 ≤ maxB := by
        rcases Nat.eq_zero_or_pos maxB with hz | hp
        · subst hz
          simp at hn
          omega
        · exact hp
      have hlen1 : ¬ ((1 : Nat) > maxB) := by omega
      have henc : rlpEncNat n = [n] := by simp [rlpEncNat, h0, h1]
      rw [henc]
      simp only [List.cons_append, List.nil_append, rlpDecNat, decodeBytesWith,
        headerDecode]
      rw [if_pos (by omega : n ≤ 0x7F)]
      simp [bindOk, pureIsOk, beVal, hlen1, h0]
    · have hLpos : 1 ≤ (beBytes n).length := beBytes_length_pos h0
      have hLle : (beBytes n).length ≤ maxB := beBytes_length_le (by omega) hn
      have hL56 : (beBytes n).length < 56 := by omega
      have henc : rlpEncNat n = headerEncode ⟨false, (beBytes n).length⟩ ++ beBytes n := by
        simp [rlpEncNat, h0, h1, headerEncode, hL56]
      rw [henc]
      simp only [rlpDecNat, decodeBytesWith, List.append_assoc]
      rw [headerDecode_headerEncode false (beBytes n).length (beBytes n ++ rest)
        (by omega) (by simp) ?canon2]
      case canon2 =>
        intro _ hL1
        obtain ⟨c, hcc⟩ : ∃ c, beBytes n = [c] := List.length_eq_one.mp hL1
        refine ⟨c, rest, by simp [hcc], ?_⟩
        have hbv : beVal (beBytes n) = n := beVal_beBytes hn64
        rw [hcc] at hbv
        simp [beVal] at hbv
        omega
      have htake : (beBytes n ++ rest).take (beBytes n).length = beBytes n := by
        simp [List.take_append]
      have hdrop : (beBytes n ++ rest).drop (beBytes n).length = rest := by
        simp [List.drop_append]
      have hover : ¬ ((beBytes n).length > maxB) := by omega
      simp [bindOk, pureIsOk, htake, hdrop, hover, beBytes_head_ne_zero h0 hn64,
        beVal_beBytes hn64]

/-! ## Lemmas: encoded lengths match the length functions -/

theorem beBytesF_length_le_fuel (fuel n : Nat) : (beBytesF fuel n).length ≤ fuel := by
  induction fuel generalizing n with
  | zero => simp [beBytesF]
  | succ fuel ih =>
    by_cases hn : n = 0
    · simp [beBytesF, hn]
    · simp only [beBytesF, hn, if_false, List.length_append, List.length_cons,
        List.length_nil]
      have := ih (n / 256)
      omega

theorem beBytes_length_le64 (n : Nat) : (beBytes n).length ≤ 64 :=
  beBytesF_length_le_fuel 64 n

theorem headerEncode_length (h : RlpHeader) :
    (headerEncode h).length = lengthOfLength h.payloadLength := by
  unfold headerEncode lengthOfLength
  split <;> simp <;> omega

theorem lengthOfLength_le (pl : Nat) : lengthOfLength pl ≤ 65 := by
  unfold lengthOfLength
  split
  · omega
  · have := beBytes_length_le64 pl
    omega

theorem rlpEncNat_length (n : Nat) : (rlpEncNat n).length = natRlpLength n := by
  unfold rlpEncNat natRlpLength
  by_cases h0 : n = 0
  · simp [h0]
  · by_cases h1 : n < 0x80 <;> simp [h0, h1] <;> omega

theorem natRlpLength_le (n : Nat) : natRlpLength n ≤ 65 := by
  unfold natRlpLength
  split
  · omega
  · have := beBytes_length_le64 n
    omega

theorem natRlpLength_pos (n : Nat) : 1 ≤ natRlpLength n := by
  unfold natRlpLength
  split
  · omega
  · omega

theorem rlpEncBytes_length (d : ByteL) :
    (rlpEncBytes d).length = bytesRlpLength d := by
  unfold rlpEncBytes bytesRlpLength
  split
  · simp_all
  · simp [headerEncode_length]

theorem bytesRlpLength_le (d : ByteL) : bytesRlpLength d ≤ 65 + d.length := by
  unfold bytesRlpLength
  split
  · omega
  · have := lengthOfLength_le d.length
    omega

theorem txKind_rlpEncode_length (k : TxKind) :
    k.rlpEncode.length = k.rlpLength := by
  cases k with
  | create => rfl
  | call a => simp [TxKind.rlpEncode, TxKind.rlpLength, headerEncode_length]

theorem txKind_rlpLength_le (k : TxKind) (hwf : k.wf) : k.rlpLength ≤ 21 := by
  cases k with
  | create => simp [TxKind.rlpLength]
  | call a =>
    obtain ⟨h20, _⟩ := hwf
    simp [TxKind.rlpLength, h20, lengthOfLength]

theorem writeRlpVrs_length (sig : Signature) :
    sig.writeRlpVrs.length = sig.rlpVrsLen := by
  simp [Signature.writeRlpVrs, Signature.rlpVrsLen, Parity.rlpLength,
    rlpEncNat_length]
  omega

theorem rlpEncodeFields_length (tx : TxLegacy) :
    tx.rlpEncodeFields.length = tx.rlpEncodedFieldsLength := by
  simp [TxLegacy.rlpEncodeFields, TxLegacy.rlpEncodedFieldsLength,
    rlpEncNat_length, rlpEncBytes_length, txKind_rlpEncode_length]
  ring

/-! ## Lemmas: parity, kind, signature, field round-trips -/

theorem parity_toU64_lt {p : Parity} (hp : p.legacyWf) : p.toU64 < 256 ^ 8 := by
  have h8 : (256 : Nat) ^ 8 = 2 ^ 64 := by norm_num
  cases p with
  | parity b => cases b <;> simp [Parity.toU64] <;> omega
  | nonEip155 b => cases b <;> simp [Parity.toU64] <;> omega
  | eip155 v =>
    simp [Parity.toU64]
    obtain ⟨_, h⟩ := hp
    omega

theorem parity_fromU64_toU64 {p : Parity} (hp : p.legacyWf) :
    Parity.fromU64 p.toU64 = some p := by
  cases p with
  | parity b => cases b <;> rfl
  | nonEip155 b => cases b <;> rfl
  | eip155 v =>
    obtain ⟨h35, _⟩ := hp
    simp only [Parity.toU64, Parity.fromU64]
    rw [if_neg (by omega), if_neg (by omega), if_neg (by omega), if_neg (by omega),
      if_pos h35]

theorem txKind_rlpDecode_rlpEncode (k : TxKind) (rest : ByteL) (hwf : k.wf) :
    TxKind.rlpDecode (k.rlpEncode ++ rest) = Except.ok (k, rest) := by
  cases k with
  | create => rfl
  | call a =>
    obtain ⟨h20, _⟩ := hwf
    have henc : TxKind.rlpEncode (.call a) = 0x94 :: a := by
      simp [TxKind.rlpEncode, headerEncode, h20, lengthOfLength]
    rw [henc]
    simp only [List.cons_append, TxKind.rlpDecode]
    rw [if_neg (by omega)]
    have hdec : decodeBytesWith false (0x94 :: (a ++ rest)) = Except.ok (a, rest) := by
      have hh : (0x94 : Nat) :: (a ++ rest) =
          headerEncode ⟨false, 20⟩ ++ (a ++ rest) := by
        simp [headerEncode]
      rw [hh]
      unfold decodeBytesWith
      rw [headerDecode_headerEncode false 20 (a ++ rest) (by omega)
        (by simp [h20]) (by omega)]
      simp only [bindOk, pureIsOk]
      have htake : (a ++ rest).take 20 = a := by
        rw [← h20]
        simp [List.take_append]
      have hdrop : (a ++ rest).drop 20 = rest := by
        rw [← h20]
        simp [List.drop_append]
      simp [htake, hdrop]
    rw [hdec]
    simp [bindOk, pureIsOk, h20]

theorem decodeRlpVrs_writeRlpVrs (sig : Signature) (rest : ByteL)
    (hr : sig.r < 2 ^ 256) (hs : sig.s < 2 ^ 256) (hv : sig.v.legacyWf) :
    Signature.decodeRlpVrs (sig.writeRlpVrs ++ rest) = Except.ok (sig, rest) := by
  have h256 : (256 : Nat) ^ 32 = 2 ^ 256 := by norm_num
  unfold Signature.writeRlpVrs Signature.decodeRlpVrs
  rw [List.append_assoc, List.append_assoc]
  rw [rlpDecNat_rlpEncNat 8 _ _ (by omega) (parity_toU64_lt hv)]
  simp only [bindOk]
  rw [parity_fromU64_toU64 hv]
  rw [rlpDecNat_rlpEncNat 32 _ _ (by omega) (by omega)]
  simp only [bindOk]
  rw [rlpDecNat_rlpEncNat 32 _ _ (by omega) (by omega)]
  simp [bindOk, pureIsOk]

theorem rlpDecodeFields_rlpEncodeFields (tx : TxLegacy) (rest : ByteL)
    (hnonce : tx.nonce < 2 ^ 64) (hgp : tx.gasPrice < 2 ^ 128)
    (hgl : tx.gasLimit < 2 ^ 64) (hval : tx.value < 2 ^ 256)
    (hto : tx.toKind.wf) (hinp : tx.input.length < 2 ^ 64) :
    TxLegacy.rlpDecodeFields (tx.rlpEncodeFields ++ rest) =
      Except.ok ({ tx with chainId := none }, rest) := by
  have h8 : (256 : Nat) ^ 8 = 2 ^ 64 := by norm_num
  have h16 : (256 : Nat) ^ 16 = 2 ^ 128 := by norm_num
  have h32 : (256 : Nat) ^ 32 = 2 ^ 256 := by norm_num
  unfold TxLegacy.rlpEncodeFields TxLegacy.rlpDecodeFields
  simp only [List.append_assoc]
  rw [rlpDecNat_rlpEncNat 8 _ _ (by omega) (by omega)]
  simp only [bindOk]
  rw [rlpDecNat_rlpEncNat 16 _ _ (by omega) (by omega)]
  simp only [bindOk]
  rw [rlpDecNat_rlpEncNat 8 _ _ (by omega) (by omega)]
  simp only [bindOk]
  rw [txKind_rlpDecode_rlpEncode tx.toKind _ hto]
  simp only [bindOk]
  rw [rlpDecNat_rlpEncNat 32 _ _ (by omega) (by omega)]
  simp only [bindOk]
  rw [rlpDecBytes_rlpEncBytes tx.input rest hinp]
  simp [bindOk, pureIsOk]

theorem legacySig_of_not_parity (sig : Signature)
    (h : ∀ b, sig.v ≠ Parity.parity b) : TxLegacy.legacySig sig = sig := by
  unfold TxLegacy.legacySig
  cases hsv : sig.v with
  | parity b => exact absurd hsv (h b)
  | nonEip155 b => rfl
  | eip155 v => rfl

/-- The signed-form round-trip, with an arbitrary unconsumed suffix:
decoding the signed encoding recovers the transaction and signature
exactly and consumes exactly the encoded bytes. -/
theorem rlpDecodeWithSignature_rlpEncodeSigned (tx : TxLegacy) (sig : Signature)
    (h : LegacyValid tx sig) (suffix : ByteL) :
    TxLegacy.rlpDecodeWithSignature (tx.rlpEncodeSigned sig ++ suffix) =
      Except.ok ((tx, sig), suffix) := by
  obtain ⟨hnonce, hgp, hgl, hval, hto, hinpb, hinpl, hr, hs, hpar⟩ := h
  have hnotp : ∀ b, sig.v ≠ Parity.parity b := by
    intro b hb
    rw [hb] at hpar
    exact hpar
  have hnp : TxLegacy.legacySig sig = sig := legacySig_of_not_parity sig hnotp
  have hvwf : sig.v.legacyWf := by
    cases hsv : sig.v with
    | parity b => exact absurd hsv (hnotp b)
    | nonEip155 b => trivial
    | eip155 v =>
      rw [hsv] at hpar
      exact ⟨hpar.1, hpar.2.1⟩
  have hFL : tx.rlpEncodeFields.length = tx.rlpEncodedFieldsLength :=
    rlpEncodeFields_length tx
  have hVL : sig.writeRlpVrs.length = sig.rlpVrsLen := writeRlpVrs_length sig
  have hFLle : tx.rlpEncodedFieldsLength ≤ 346 + tx.input.length := by
    unfold TxLegacy.rlpEncodedFieldsLength
    have h1 := natRlpLength_le tx.nonce
    have h2 := natRlpLength_le tx.gasPrice
    have h3 := natRlpLength_le tx.gasLimit
    have h4 := natRlpLength_le tx.value
    have h5 := txKind_rlpLength_le tx.toKind hto
    have h6 := bytesRlpLength_le tx.input
    omega
  have hVLle : sig.rlpVrsLen ≤ 195 := by
    unfold Signature.rlpVrsLen Parity.rlpLength
    have h1 := natRlpLength_le sig.v.toU64
    have h2 := natRlpLength_le sig.r
    have h3 := natRlpLength_le sig.s
    omega
  have hpl : tx.rlpEncodedFieldsLength + sig.rlpVrsLen < 2 ^ 64 := by
    have : (2 : Nat) ^ 32 < 2 ^ 64 := by norm_num
    have h2 : (346 : Nat) + 2 ^ 32 + 195 < 2 ^ 64 := by norm_num
    omega
  simp only [TxLegacy.rlpEncodeSigned, TxLegacy.rlpDecodeWithSignature, hnp,
    TxLegacy.rlpHeaderSigned, List.append_assoc]
  rw [headerDecode_headerEncode true (tx.rlpEncodedFieldsLength + sig.rlpVrsLen)
    (tx.rlpEncodeFields ++ (sig.writeRlpVrs ++ suffix)) hpl
    (by simp [hFL, hVL]) (by intro hfalse; cases hfalse)]
  simp only [bindOk, Bool.not_true, if_false, Bool.false_eq_true]
  rw [rlpDecodeFields_rlpEncodeFields tx _ hnonce hgp hgl hval hto (by omega)]
  simp only [bindOk]
  rw [decodeRlpVrs_writeRlpVrs sig suffix hr hs hvwf]
  simp only [bindOk]
  cases hsv : sig.v with
  | parity b => exact absurd hsv (hnotp b)
  | nonEip155 b =>
    rw [hsv] at hpar
    simp only [Parity.chainId]
    rw [if_neg (by
      simp only [List.length_append, hFL, hVL]
      omega)]
    rw [pureIsOk]
    refine congrArg (fun t => Except.ok ((t, sig), suffix)) ?_
    cases tx
    simp_all [parityMatchesChainId]
  | eip155 v =>
    rw [hsv] at hpar
    obtain ⟨h35, h64, hcid⟩ := hpar
    rw [if_neg (by
      simp only [List.length_append, hFL, hVL]
      omega)]
    rw [pureIsOk]
    simp only [Parity.chainId]
    rw [if_pos h35]
    refine congrArg (fun t => Except.ok ((t, sig), suffix)) ?_
    cases tx
    simp_all

/-! ## Lemmas: Except inversion -/

theorem bind_eq_ok {ε α β : Type} {e : Except ε α} {f : α → Except ε β} {c : β}
    (h : e >>= f = Except.ok c) : ∃ a, e = Except.ok a ∧ f a = Except.ok c := by
  cases e with
  | ok a => exact ⟨a, rfl, h⟩
  | error err =>
    rw [bindErr] at h
    exact absurd h (by simp)

theorem map_eq_ok {ε α β : Type} {e : Except ε α} {f : α → β} {b : β}
    (h : e.map f = Except.ok b) : ∃ a, e = Except.ok a ∧ b = f a := by
  cases e with
  | ok a =>
    simp only [Except.map] at h
    exact ⟨a, rfl, (Except.ok.inj h).symm⟩
  | error err => simp [Except.map] at h

theorem dropLast_append_ne_nil {a b : ByteL} (hb : b ≠ []) :
    (a ++ b).dropLast = a ++ b.dropLast := by
  induction a with
  | nil => simp
  | cons x xs ih =>
    have hne : xs ++ b ≠ [] := by
      intro hh
      exact hb (List.append_eq_nil.mp hh).2
    simp only [List.cons_append]
    rw [List.dropLast_cons_of_ne_nil hne, ih]

/-! ## Lemmas: parity decode characterization -/

theorem parity_fromU64_eip155 {u w : Nat}
    (h : Parity.fromU64 u = some (.eip155 w)) : 35 ≤ w := by
  unfold Parity.fromU64 at h
  split_ifs at h <;> simp_all

theorem decodeRlpVrs_parity_sound {buf : ByteL} {sig : Signature} {rest : ByteL}
    (h : Signature.decodeRlpVrs buf = Except.ok (sig, rest)) :
    ∀ w, sig.v = .eip155 w → 35 ≤ w := by
  unfold Signature.decodeRlpVrs at h
  obtain ⟨⟨vRaw, rest1⟩, hv, h⟩ := bind_eq_ok h
  dsimp only at h
  cases hp : Parity.fromU64 vRaw with
  | none =>
    rw [hp] at h
    exact absurd h (by simp)
  | some p =>
    rw [hp] at h
    obtain ⟨⟨r, rest2⟩, hrr, h⟩ := bind_eq_ok h
    dsimp only at h
    obtain ⟨⟨s2, rest3⟩, hss, h⟩ := bind_eq_ok h
    dsimp only at h
    rw [pureIsOk] at h
    have hinj := Except.ok.inj h
    have hsig : ({ r := r, s := s2, v := p } : Signature) = sig :=
      congrArg Prod.fst hinj
    intro w hw
    have hpw : p = Parity.eip155 w := by rw [← hw, ← hsig]
    rw [hpw] at hp
    exact parity_fromU64_eip155 hp

/-! ## Lemmas: signed-decode soundness -/

theorem rlpDecodeWithSignature_sound {buf : ByteL} {tx : TxLegacy} {sig : Signature}
    {rest : ByteL}
    (h : TxLegacy.rlpDecodeWithSignature buf = Except.ok ((tx, sig), rest)) :
    tx.chainId = sig.v.chainId ∧ (∀ b, sig.v ≠ .parity b) ∧
    (∀ w, sig.v = .eip155 w → 35 ≤ w) := by
  unfold TxLegacy.rlpDecodeWithSignature at h
  obtain ⟨⟨hd, rest0⟩, hh, h⟩ := bind_eq_ok h
  dsimp only at h
  cases hl : hd.list with
  | false =>
    rw [hl] at h
    simp at h
  | true =>
    rw [hl] at h
    simp only [Bool.not_true, Bool.false_eq_true, if_false] at h
    obtain ⟨⟨tx0, rest1⟩, hf, h⟩ := bind_eq_ok h
    dsimp only at h
    obtain ⟨⟨sg, rest2⟩, hs, h⟩ := bind_eq_ok h
    dsimp only at h
    have hpar := decodeRlpVrs_parity_sound hs
    cases hv : sg.v with
    | parity b =>
      rw [hv] at h
      simp at h
    | nonEip155 b =>
      rw [hv] at h
      by_cases hlen : rest2.length + hd.payloadLength ≠ rest0.length
      · rw [if_pos hlen] at h
        simp at h
      · rw [if_neg hlen, pureIsOk] at h
        have hinj := Except.ok.inj h
        have htx : { tx0 with chainId := (Parity.nonEip155 b).chainId } = tx :=
          congrArg Prod.fst (congrArg Prod.fst hinj)
        have hsg : sg = sig := congrArg Prod.snd (congrArg Prod.fst hinj)
        rw [hsg] at hv
        refine ⟨?_, ?_, ?_⟩
        · rw [← htx, hv]
        · intro b2 hb2
          rw [hv] at hb2
          exact Parity.noConfusion hb2
        · intro w hw
          rw [hv] at hw
          exact Parity.noConfusion hw
    | eip155 v =>
      rw [hv] at h
      by_cases hlen : rest2.length + hd.payloadLength ≠ rest0.length
      · rw [if_pos hlen] at h
        simp at h
      · rw [if_neg hlen, pureIsOk] at h
        have hinj := Except.ok.inj h
        have htx : { tx0 with chainId := (Parity.eip155 v).chainId } = tx :=
          congrArg Prod.fst (congrArg Prod.fst hinj)
        have hsg : sg = sig := congrArg Prod.snd (congrArg Prod.fst hinj)
        rw [hsg] at hv
        rw [hsg] at hpar
        refine ⟨?_, ?_, ?_⟩
        · rw [← htx, hv]
        · intro b2 hb2
          rw [hv] at hb2
          exact Parity.noConfusion hb2
        · intro w hw
          exact hpar w hw

/-! ## Lemmas: truncation is always rejected -/

theorem legacyValid_payload_lt {tx : TxLegacy} {sig : Signature}
    (h : LegacyValid tx sig) :
    tx.rlpEncodedFieldsLength + sig.rlpVrsLen < 2 ^ 64 := by
  obtain ⟨_, _, _, _, hto, _, hinpl, _, _, _⟩ := h
  have hFLle : tx.rlpEncodedFieldsLength ≤ 346 + tx.input.length := by
    unfold TxLegacy.rlpEncodedFieldsLength
    have h1 := natRlpLength_le tx.nonce
    have h2 := natRlpLength_le tx.gasPrice
    have h3 := natRlpLength_le tx.gasLimit
    have h4 := natRlpLength_le tx.value
    have h5 := txKind_rlpLength_le tx.toKind hto
    have h6 := bytesRlpLength_le tx.input
    omega
  have hVLle : sig.rlpVrsLen ≤ 195 := by
    unfold Signature.rlpVrsLen Parity.rlpLength
    have h1 := natRlpLength_le sig.v.toU64
    have h2 := natRlpLength_le sig.r
    have h3 := natRlpLength_le sig.s
    omega
  have hbig : (346 : Nat) + 2 ^ 32 + 195 < 2 ^ 64 := by norm_num
  omega

theorem rlpVrsLen_pos (sig : Signature) : 3 ≤ sig.rlpVrsLen := by
  unfold Signature.rlpVrsLen Parity.rlpLength
  have h1 := natRlpLength_pos sig.v.toU64
  have h2 := natRlpLength_pos sig.r
  have h3 := natRlpLength_pos sig.s
  omega

theorem rlpDecodeWithSignature_truncated (tx : TxLegacy) (sig : Signature)
    (h : LegacyValid tx sig) :
    TxLegacy.rlpDecodeWithSignature ((tx.rlpEncodeSigned sig).dropLast) =
      Except.error RlpError.inputTooShort := by
  have hpar := h.2.2.2.2.2.2.2.2.2
  have hnotp : ∀ b, sig.v ≠ Parity.parity b := by
    intro b hb
    rw [hb] at hpar
    exact hpar
  have hnp : TxLegacy.legacySig sig = sig := legacySig_of_not_parity sig hnotp
  have hpl := legacyValid_payload_lt h
  have hbody : (tx.rlpEncodeFields ++ sig.writeRlpVrs).length =
      tx.rlpEncodedFieldsLength + sig.rlpVrsLen := by
    simp [rlpEncodeFields_length, writeRlpVrs_length]
  have hne : tx.rlpEncodeFields ++ sig.writeRlpVrs ≠ [] := by
    intro hh
    have := rlpVrsLen_pos sig
    rw [hh] at hbody
    simp at hbody
    omega
  have hencode : tx.rlpEncodeSigned sig =
      headerEncode ⟨true, tx.rlpEncodedFieldsLength + sig.rlpVrsLen⟩ ++
        (tx.rlpEncodeFields ++ sig.writeRlpVrs) := by
    simp only [TxLegacy.rlpEncodeSigned, hnp, TxLegacy.rlpHeaderSigned,
      List.append_assoc]
  rw [hencode, dropLast_append_ne_nil hne]
  unfold TxLegacy.rlpDecodeWithSignature
  rw [headerDecode_truncated _ _ hpl (by
    rw [List.length_dropLast, hbody]
    have := rlpVrsLen_pos sig
    omega)]
  rw [bindErr]

theorem eip658_rlpEncode_length (s : Eip658Value) :
    s.rlpEncode.length = s.rlpLength := by
  cases s with
  | eip658 b => cases b <;> rfl
  | postState root =>
    simp [Eip658Value.rlpEncode, Eip658Value.rlpLength, rlpEncBytes_length]

theorem log_rlpEncode_length (l : Log) : l.rlpEncode.length = l.rlpLength := by
  have hflat : ((l.topics.map rlpEncBytes).flatten).length =
      (l.topics.map bytesRlpLength).sum := by
    rw [List.length_flatten, List.map_map]
    congr 1
    apply List.map_congr_left
    intro a _
    exact rlpEncBytes_length a
  simp [Log.rlpEncode, Log.rlpLength, Log.rlpPayloadLength, headerEncode_length,
    rlpEncBytes_length, hflat]
  omega

theorem logs_flatten_length (logs : List Log) :
    ((logs.map Log.rlpEncode).flatten).length = (logs.map Log.rlpLength).sum := by
  rw [List.length_flatten, List.map_map]
  congr 1
  apply List.map_congr_left
  intro a _
  exact log_rlpEncode_length a

theorem lengthOfLength_pos (pl : Nat) : 1 ≤ lengthOfLength pl := by
  unfold lengthOfLength
  split <;> omega

theorem bytesRlpLength_pos (d : ByteL) : 1 ≤ bytesRlpLength d := by
  unfold bytesRlpLength
  split
  · omega
  · have := lengthOfLength_pos d.length
    omega

theorem decodeReceipt_truncated (rb : ReceiptWithBloom)
    (hpl : rb.payloadLen < 2 ^ 64) :
    ReceiptWithBloom.decodeReceipt (rb.encodeFields.dropLast) =
      Except.error RlpError.inputTooShort := by
  have hbody : (rb.receipt.status.rlpEncode ++
      (rlpEncNat rb.receipt.cumulativeGasUsed ++
        (rlpEncBytes rb.logsBloom ++
          (headerEncode ⟨true, (rb.receipt.logs.map Log.rlpLength).sum⟩ ++
            (rb.receipt.logs.map Log.rlpEncode).flatten)))).length =
      rb.payloadLen := by
    simp only [List.length_append, eip658_rlpEncode_length, rlpEncNat_length,
      rlpEncBytes_length, headerEncode_length, logs_flatten_length,
      ReceiptWithBloom.payloadLen]
    omega
  have hne : rb.receipt.status.rlpEncode ++
      (rlpEncNat rb.receipt.cumulativeGasUsed ++
        (rlpEncBytes rb.logsBloom ++
          (headerEncode ⟨true, (rb.receipt.logs.map Log.rlpLength).sum⟩ ++
            (rb.receipt.logs.map Log.rlpEncode).flatten))) ≠ [] := by
    intro hh
    have h1 := bytesRlpLength_pos rb.logsBloom
    rw [hh] at hbody
    simp only [List.length_nil] at hbody
    have h2 := eip658_rlpEncode_length rb.receipt.status
    unfold ReceiptWithBloom.payloadLen at hbody
    have h3 := natRlpLength_pos rb.receipt.cumulativeGasUsed
    omega
  have hencode : rb.encodeFields =
      headerEncode ⟨true, rb.payloadLen⟩ ++
        (rb.receipt.status.rlpEncode ++
          (rlpEncNat rb.receipt.cumulativeGasUsed ++
            (rlpEncBytes rb.logsBloom ++
              (headerEncode ⟨true, (rb.receipt.logs.map Log.rlpLength).sum⟩ ++
                (rb.receipt.logs.map Log.rlpEncode).flatten)))) := by
    simp only [ReceiptWithBloom.encodeFields, List.append_assoc]
  rw [hencode, dropLast_append_ne_nil hne]
  unfold ReceiptWithBloom.decodeReceipt
  rw [headerDecode_truncated _ _ hpl (by
    rw [List.length_dropLast, hbody]
    have h1 := bytesRlpLength_pos rb.logsBloom
    unfold ReceiptWithBloom.payloadLen
    have h3 := natRlpLength_pos rb.receipt.cumulativeGasUsed
    omega)]
  rw [bindErr]

/-! ## Lemmas: a consumed/declared length mismatch is always an error -/

theorem rlpDecodeWithSignature_mismatch (buf : ByteL) (hd : RlpHeader)
    (rest0 : ByteL) (tx0 : TxLegacy) (rest1 : ByteL) (sig : Signature)
    (rest2 : ByteL)
    (hh : headerDecode buf = Except.ok (hd, rest0)) (hl : hd.list = true)
    (hf : TxLegacy.rlpDecodeFields rest0 = Except.ok (tx0, rest1))
    (hs : Signature.decodeRlpVrs rest1 = Except.ok (sig, rest2))
    (hv : ∀ b, sig.v ≠ .parity b)
    (hm : rest2.length + hd.payloadLength ≠ rest0.length) :
    TxLegacy.rlpDecodeWithSignature buf =
      Except.error (RlpError.listLengthMismatch hd.payloadLength
        (rest0.length - rest2.length)) := by
  unfold TxLegacy.rlpDecodeWithSignature
  rw [hh]
  simp only [bindOk]
  rw [hl]
  simp only [Bool.not_true, Bool.false_eq_true, if_false]
  rw [hf]
  simp only [bindOk]
  rw [hs]
  simp only [bindOk]
  cases hsv : sig.v with
  | parity b => exact absurd hsv (hv b)
  | nonEip155 b =>
    rw [if_pos hm]
    rfl
  | eip155 v =>
    rw [if_pos hm]
    rfl

theorem decodeReceipt_mismatch (buf : ByteL) (hd : RlpHeader) (b0 : ByteL)
    (st : Eip658Value) (b1 : ByteL) (cgu : Nat) (b2 : ByteL) (bloom : ByteL)
    (b3 : ByteL) (logs : List Log) (b4 : ByteL)
    (hh : headerDecode buf = Except.ok (hd, b0)) (hl : hd.list = true)
    (h1 : Eip658Value.rlpDecode b0 = Except.ok (st, b1))
    (h2 : rlpDecNat 16 b1 = Except.ok (cgu, b2))
    (h3 : bloomRlpDecode b2 = Except.ok (bloom, b3))
    (h4 : vecRlpDecode Log.rlpDecode b3 = Except.ok (logs, b4))
    (hm : b0.length - b4.length ≠ hd.payloadLength) :
    ReceiptWithBloom.decodeReceipt buf =
      Except.error (RlpError.listLengthMismatch hd.payloadLength
        (b0.length - b4.length)) := by
  unfold ReceiptWithBloom.decodeReceipt
  rw [hh]
  simp only [bindOk]
  rw [hl]
  simp only [Bool.not_true, Bool.false_eq_true, if_false]
  rw [h1]
  simp only [bindOk]
  rw [h2]
  simp only [bindOk]
  rw [h3]
  simp only [bindOk]
  rw [h4]
  simp only [bindOk]
  rw [if_pos hm]
  rfl

/-! ## Lemmas: wallet paths -/

theorem wallet_map_path {e : Except WalletError Nat} {w : Wallet}
    (h : e.map Wallet.fromSigningKey = Except.ok w) :
    w.address = secretKeyToAddress w.signer := by
  obtain ⟨k, _, hw⟩ := map_eq_ok h
  rw [hw]
  rfl

end Alloy

/-! ## Claim theorems -/

namespace Alloy

set_option maxRecDepth 100000

/-- C1: the claim says every signed-form operation normalizes legacy
parity chain-id-aware (EIP-155 form when a chain id is present).  The
code instead applies one chain-id-oblivious rule in all four operations:
`Parity(b)` becomes `NonEip155(b)` even for a transaction carrying chain
id 1, so the encoding, length, hash and sealed signature all use the raw
`v = 27` form where the claim requires the EIP-155 `v = 37` form, and the
two forms produce different bytes and different hashes. -/
theorem C1_legacy_sig_not_chain_id_aware :
    TxLegacy.legacySig c1sigRaw = c1sigNon ∧
    c1tx.rlpEncodeSigned c1sigRaw = c1tx.rlpEncodeSigned c1sigNon ∧
    c1tx.rlpEncodedLengthWithSignature c1sigRaw =
      c1tx.rlpEncodedLengthWithSignature c1sigNon ∧
    c1tx.txHashWithType c1sigRaw 0 = c1tx.txHashWithType c1sigNon 0 ∧
    (c1tx.intoSigned c1sigRaw).signature = c1sigNon ∧
    c1tx.chainId = some 1 ∧
    isEip155 (TxLegacy.legacySig c1sigRaw).v = false ∧
    c1tx.rlpEncodeSigned c1sigRaw ≠ c1tx.rlpEncodeSigned c1sigEip ∧
    c1tx.txHashWithType c1sigRaw 0 ≠ c1tx.txHashWithType c1sigEip 0 ∧
    (c1tx.intoSigned c1sigRaw).hash ≠ (c1tx.intoSigned c1sigEip).hash := by
  decide

/-- C2 counterexample: `into_signed` does not enforce the
`chain_id ⇔ Eip155` pairing for the transactions it produces — sealing a
chain-id-1 transaction with a raw `Parity(0)` signature yields
`chain_id = Some 1` but a `NonEip155` parity. -/
theorem C2_intoSigned_breaks_pairing :
    (c1tx.intoSigned c1sigRaw).tx.chainId = some 1 ∧
    isEip155 (c1tx.intoSigned c1sigRaw).signature.v = false := by
  decide

/-- C2 (amended): every legacy signed transaction accepted by
`rlp_decode_with_signature` satisfies `chain_id.isSome ⇔ parity is
Eip155`, with the chain id recovered from the parity and parities outside
the two legacy forms never accepted; `into_signed` preserves the pairing
only when the supplied signature's parity form already matches the
transaction's chain id. -/
theorem C2_chain_id_parity_pairing :
    (∀ (buf : ByteL) (tx : TxLegacy) (sig : Signature) (rest : ByteL),
      TxLegacy.rlpDecodeWithSignature buf = Except.ok ((tx, sig), rest) →
        ((∃ id, tx.chainId = some id) ↔ (∃ v, sig.v = .eip155 v)) ∧
        tx.chainId = sig.v.chainId ∧
        (∀ b, sig.v ≠ .parity b)) ∧
    (∀ (tx : TxLegacy) (sig : Signature), parityMatchesChainId tx.chainId sig.v →
      (tx.intoSigned sig).tx.chainId = (tx.intoSigned sig).signature.v.chainId ∧
      ((tx.intoSigned sig).tx.chainId.isSome = true ↔
        isEip155 (tx.intoSigned sig).signature.v = true)) := by
  constructor
  · intro buf tx sig rest h
    obtain ⟨hcid, hnp, h35⟩ := rlpDecodeWithSignature_sound h
    refine ⟨?_, hcid, hnp⟩
    cases hv : sig.v with
    | parity b => exact absurd hv (hnp b)
    | nonEip155 b =>
      rw [hv] at hcid
      simp only [Parity.chainId] at hcid
      constructor
      · rintro ⟨id, hid⟩
        rw [hid] at hcid
        cases hcid
      · rintro ⟨v, hv2⟩
        exact absurd hv2 (by simp)
    | eip155 v =>
      have h35v := h35 v hv
      rw [hv] at hcid
      constructor
      · intro _
        exact ⟨v, rfl⟩
      · intro _
        refine ⟨(v - 35) / 2, ?_⟩
        rw [hcid]
        simp [Parity.chainId, if_pos h35v]
  · intro tx sig hp
    cases hv : sig.v with
    | parity b =>
      rw [hv] at hp
      exact hp.elim
    | nonEip155 b =>
      rw [hv] at hp
      have hsig : (tx.intoSigned sig).signature = sig := by
        simp [TxLegacy.intoSigned, hv]
      have htx : (tx.intoSigned sig).tx = tx := by
        simp [TxLegacy.intoSigned, hv]
      rw [hsig, htx, hv, hp]
      simp [Parity.chainId, isEip155]
    | eip155 v =>
      rw [hv] at hp
      obtain ⟨h35, h64, hcid⟩ := hp
      have hsig : (tx.intoSigned sig).signature = sig := by
        simp [TxLegacy.intoSigned, hv]
      have htx : (tx.intoSigned sig).tx = tx := by
        simp [TxLegacy.intoSigned, hv]
      rw [hsig, htx, hv, hcid]
      simp [Parity.chainId, if_pos h35, isEip155]

/-- C2 witness: the known-vector encoding decodes successfully and its
chain id (1) pairs with its EIP-155 parity (`v = 37`); a consistent
EIP-155 signature passed through `into_signed` keeps the pairing. -/
theorem C2_witness :
    TxLegacy.rlpDecodeWithSignature (c4tx.rlpEncodeSigned c4sig) =
      Except.ok ((c4tx, c4sig), []) ∧
    ((∃ id, c4tx.chainId = some id) ↔ (∃ v, c4sig.v = .eip155 v)) ∧
    parityMatchesChainId c1tx.chainId c1sigEip.v ∧
    (c1tx.intoSigned c1sigEip).tx.chainId =
      (c1tx.intoSigned c1sigEip).signature.v.chainId := by
  have hdec : TxLegacy.rlpDecodeWithSignature (c4tx.rlpEncodeSigned c4sig) =
      Except.ok ((c4tx, c4sig), []) := by decide
  exact ⟨hdec, (C2_chain_id_parity_pairing.1 _ _ _ _ hdec).1, by decide,
    (C2_chain_id_parity_pairing.2 c1tx c1sigEip (by decide)).1⟩

/-- C3: for every valid legacy signed transaction value, decoding the
bytes produced by `rlp_encode_signed` returns the same pair, consuming
exactly the produced bytes (an arbitrary unconsumed suffix is returned
untouched). -/
theorem C3_signed_roundtrip (tx : TxLegacy) (sig : Signature)
    (h : LegacyValid tx sig) :
    TxLegacy.rlpDecodeWithSignature (tx.rlpEncodeSigned sig) =
      Except.ok ((tx, sig), []) ∧
    (∀ suffix, TxLegacy.rlpDecodeWithSignature (tx.rlpEncodeSigned sig ++ suffix) =
      Except.ok ((tx, sig), suffix)) := by
  constructor
  · have hh := rlpDecodeWithSignature_rlpEncodeSigned tx sig h []
    simpa using hh
  · exact fun suffix => rlpDecodeWithSignature_rlpEncodeSigned tx sig h suffix

/-- C3 witness: the known vector is valid and round-trips. -/
theorem C3_witness :
    LegacyValid c4tx c4sig ∧
    TxLegacy.rlpDecodeWithSignature (c4tx.rlpEncodeSigned c4sig) =
      Except.ok ((c4tx, c4sig), []) :=
  ⟨by decide, (C3_signed_roundtrip c4tx c4sig (by decide)).1⟩

/-- C4: the known-vector legacy transaction sealed with the given
EIP-155 signature has the expected canonical hash and recovers the
expected signer. -/
theorem C4_known_vector :
    (c4tx.intoSigned c4sig).hash = c4hash ∧
    (c4tx.intoSigned c4sig).recoverSigner = some c4signer := by
  constructor
  · decide
  · decide

/-- C5: the bloom cached by `From<Receipt>` equals `bloom_slow` over the
same logs, and `bloom_slow` is a function of the logs alone (identical
logs give bit-identical filters). -/
theorem C5_bloom_cached (r : Receipt) :
    (ReceiptWithBloom.ofReceipt r).logsBloom = r.bloomSlow ∧
    r.withBloom.logsBloom = r.bloomSlow ∧
    (∀ r2 : Receipt, r2.logs = r.logs → r2.bloomSlow = r.bloomSlow) :=
  ⟨rfl, rfl, fun r2 h => by
    unfold Receipt.bloomSlow
    rw [h]⟩

/-- C5 witness: instantiated at a one-log receipt, with a second receipt
differing only outside the logs. -/
theorem C5_witness :
    (ReceiptWithBloom.ofReceipt receiptOne).logsBloom = receiptOne.bloomSlow ∧
    (Receipt.mk (.eip658 false) 0 receiptOne.logs).bloomSlow =
      receiptOne.bloomSlow :=
  ⟨(C5_bloom_cached receiptOne).1,
   (C5_bloom_cached receiptOne).2.2 ⟨.eip658 false, 0, receiptOne.logs⟩ rfl⟩

/-- C6: truncating a validly encoded legacy signed transaction or
receipt by one byte always fails with an input-too-short error, and each
decoder fails with `ListLengthMismatch` whenever the bytes consumed
inside the list differ from the header's declared payload length. -/
theorem C6_truncation_and_mismatch_rejected :
    (∀ tx sig, LegacyValid tx sig →
      TxLegacy.rlpDecodeWithSignature ((tx.rlpEncodeSigned sig).dropLast) =
        Except.error RlpError.inputTooShort) ∧
    (∀ rb : ReceiptWithBloom, rb.payloadLen < 2 ^ 64 →
      ReceiptWithBloom.decodeReceipt (rb.encodeFields.dropLast) =
        Except.error RlpError.inputTooShort) ∧
    (∀ (buf : ByteL) (hd : RlpHeader) (rest0 : ByteL) (tx0 : TxLegacy)
        (rest1 : ByteL) (sig : Signature) (rest2 : ByteL),
      headerDecode buf = Except.ok (hd, rest0) → hd.list = true →
      TxLegacy.rlpDecodeFields rest0 = Except.ok (tx0, rest1) →
      Signature.decodeRlpVrs rest1 = Except.ok (sig, rest2) →
      (∀ b, sig.v ≠ .parity b) →
      rest2.length + hd.payloadLength ≠ rest0.length →
      TxLegacy.rlpDecodeWithSignature buf =
        Except.error (RlpError.listLengthMismatch hd.payloadLength
          (rest0.length - rest2.length))) ∧
    (∀ (buf : ByteL) (hd : RlpHeader) (b0 : ByteL) (st : Eip658Value)
        (b1 : ByteL) (cgu : Nat) (b2 : ByteL) (bloom : ByteL) (b3 : ByteL)
        (logs : List Log) (b4 : ByteL),
      headerDecode buf = Except.ok (hd, b0) → hd.list = true →
      Eip658Value.rlpDecode b0 = Except.ok (st, b1) →
      rlpDecNat 16 b1 = Except.ok (cgu, b2) →
      bloomRlpDecode b2 = Except.ok (bloom, b3) →
      vecRlpDecode Log.rlpDecode b3 = Except.ok (logs, b4) →
      b0.length - b4.length ≠ hd.payloadLength →
      ReceiptWithBloom.decodeReceipt buf =
        Except.error (RlpError.listLengthMismatch hd.payloadLength
          (b0.length - b4.length))) :=
  ⟨rlpDecodeWithSignature_truncated,
   decodeReceipt_truncated,
   fun buf hd rest0 tx0 rest1 sig rest2 hh hl hf hs hv hm =>
     rlpDecodeWithSignature_mismatch buf hd rest0 tx0 rest1 sig rest2 hh hl hf hs hv hm,
   fun buf hd b0 st b1 cgu b2 bloom b3 logs b4 hh hl h1 h2 h3 h4 hm =>
     decodeReceipt_mismatch buf hd b0 st b1 cgu b2 bloom b3 logs b4 hh hl h1 h2 h3 h4 hm⟩

/-- C6 witness: the truncated known-vector transaction and a truncated
concrete receipt both fail input-too-short; buffers whose declared list
length disagrees with the consumed bytes fail with
`ListLengthMismatch`. -/
theorem C6_witness :
    LegacyValid c4tx c4sig ∧
    TxLegacy.rlpDecodeWithSignature ((c4tx.rlpEncodeSigned c4sig).dropLast) =
      Except.error RlpError.inputTooShort ∧
    (ReceiptWithBloom.ofReceipt receiptTwoA).payloadLen < 2 ^ 64 ∧
    ReceiptWithBloom.decodeReceipt
        ((ReceiptWithBloom.ofReceipt receiptTwoA).encodeFields.dropLast) =
      Except.error RlpError.inputTooShort ∧
    TxLegacy.rlpDecodeWithSignature
        (headerEncode ⟨true, 10⟩ ++
          (c1tx.rlpEncodeFields ++ (c1sigNon.writeRlpVrs ++ [0]))) =
      Except.error (RlpError.listLengthMismatch 10 9) ∧
    ReceiptWithBloom.decodeReceipt
        (headerEncode ⟨true, 265⟩ ++
          (Eip658Value.rlpEncode (.eip658 false) ++
            (rlpEncNat 2000 ++
              (rlpEncBytes bloomZero ++ (headerEncode ⟨true, 0⟩ ++ [0]))))) =
      Except.error (RlpError.listLengthMismatch 265 264) := by
  refine ⟨by decide,
    C6_truncation_and_mismatch_rejected.1 c4tx c4sig (by decide),
    by decide,
    C6_truncation_and_mismatch_rejected.2.1 _ (by decide),
    ?_, ?_⟩
  · exact C6_truncation_and_mismatch_rejected.2.2.1
      (headerEncode ⟨true, 10⟩ ++
        (c1tx.rlpEncodeFields ++ (c1sigNon.writeRlpVrs ++ [0])))
      ⟨true, 10⟩
      (c1tx.rlpEncodeFields ++ (c1sigNon.writeRlpVrs ++ [0]))
      ⟨none, 0, 0, 0, .create, 0, []⟩
      (c1sigNon.writeRlpVrs ++ [0])
      c1sigNon
      [0]
      (by decide) rfl (by decide) (by decide) (by decide) (by decide)
  · exact C6_truncation_and_mismatch_rejected.2.2.2
      (headerEncode ⟨true, 265⟩ ++
        (Eip658Value.rlpEncode (.eip658 false) ++
          (rlpEncNat 2000 ++
            (rlpEncBytes bloomZero ++ (headerEncode ⟨true, 0⟩ ++ [0])))))
      ⟨true, 265⟩
      (Eip658Value.rlpEncode (.eip658 false) ++
        (rlpEncNat 2000 ++
          (rlpEncBytes bloomZero ++ (headerEncode ⟨true, 0⟩ ++ [0]))))
      (.eip658 false)
      (rlpEncNat 2000 ++
        (rlpEncBytes bloomZero ++ (headerEncode ⟨true, 0⟩ ++ [0])))
      2000
      (rlpEncBytes bloomZero ++ (headerEncode ⟨true, 0⟩ ++ [0]))
      bloomZero
      (headerEncode ⟨true, 0⟩ ++ [0])
      []
      [0]
      (by decide) rfl (by decide) (by decide) (by decide) (by decide) (by decide)

/-- C7: `encode_for_signing` writes exactly the list header over
`rlp_encoded_fields_length() + eip155_fields_len()`, the six fields, and
— only when a chain id is present — the chain id followed by the two
(single-byte) encoded zero scalars; `eip155_fields_len` is `0` without a
chain id and `length(chain_id) + 2` with one. -/
theorem C7_encode_for_signing (tx : TxLegacy) :
    tx.encodeForSigning =
      headerEncode ⟨true, tx.rlpEncodedFieldsLength + tx.eip155FieldsLen⟩ ++
        tx.rlpEncodeFields ++ tx.encodeEip155SigningFields ∧
    (tx.chainId = none →
      tx.encodeEip155SigningFields = [] ∧ tx.eip155FieldsLen = 0) ∧
    (∀ id, tx.chainId = some id →
      tx.encodeEip155SigningFields = rlpEncNat id ++ rlpEncNat 0 ++ rlpEncNat 0 ∧
      rlpEncNat 0 = [0x80] ∧ (rlpEncNat 0).length = 1 ∧
      tx.eip155FieldsLen = natRlpLength id + 2 ∧
      tx.encodeEip155SigningFields.length = tx.eip155FieldsLen) := by
  refine ⟨rfl, ?_, ?_⟩
  · intro h
    simp [TxLegacy.encodeEip155SigningFields, TxLegacy.eip155FieldsLen, h]
  · intro id h
    refine ⟨?_, rfl, rfl, ?_, ?_⟩
    · simp [TxLegacy.encodeEip155SigningFields, h]
    · simp [TxLegacy.eip155FieldsLen, h]
    · simp [TxLegacy.encodeEip155SigningFields, TxLegacy.eip155FieldsLen, h,
        rlpEncNat_length, List.length_append]
      simp [rlpEncNat, natRlpLength]

/-- C7 witness: instantiated with and without a chain id. -/
theorem C7_witness :
    c1tx.encodeEip155SigningFields = rlpEncNat 1 ++ rlpEncNat 0 ++ rlpEncNat 0 ∧
    c1tx.eip155FieldsLen = natRlpLength 1 + 2 ∧
    TxLegacy.encodeEip155SigningFields ⟨none, 0, 0, 0, .create, 0, []⟩ = [] ∧
    TxLegacy.eip155FieldsLen ⟨none, 0, 0, 0, .create, 0, []⟩ = 0 :=
  ⟨((C7_encode_for_signing c1tx).2.2 1 rfl).1,
   ((C7_encode_for_signing c1tx).2.2 1 rfl).2.2.2.1,
   ((C7_encode_for_signing ⟨none, 0, 0, 0, .create, 0, []⟩).2.1 rfl).1,
   ((C7_encode_for_signing ⟨none, 0, 0, 0, .create, 0, []⟩).2.1 rfl).2⟩

/-- C8: `root_slow` returns `none` exactly when the block index is out
of range, otherwise applies the caller's aggregation to that block's
receipts; on a collection of blocks with 1 and 2 receipts the count
aggregation yields counts 1, 2, and `none`. -/
theorem C8_root_slow {T : Type} (rs : Receipts T) (i : Nat)
    (f : List T → ByteL) :
    (rs.rootSlow i f = none ↔ rs.len ≤ i) ∧
    (∀ h : i < rs.len, rs.rootSlow i f =
      some (f (rs.receiptVec.get ⟨i, h⟩))) ∧
    receiptsTwoBlocks.rootSlow 0 countFn =
      some (List.replicate 31 0 ++ [1]) ∧
    receiptsTwoBlocks.rootSlow 1 countFn =
      some (List.replicate 31 0 ++ [2]) ∧
    receiptsTwoBlocks.rootSlow 2 countFn = none := by
  refine ⟨?_, ?_, by decide, by decide, by decide⟩
  · simp [Receipts.rootSlow, Receipts.len, List.get?_eq_none]
  · intro h
    unfold Receipts.rootSlow
    have hg : rs.receiptVec.get? i = some (rs.receiptVec.get ⟨i, h⟩) :=
      List.get?_eq_get h
    rw [hg]
    rfl

/-- C8 witness: the range criterion and in-range application at concrete
indices. -/
theorem C8_witness :
    (receiptsTwoBlocks.rootSlow 2 countFn = none ↔
      receiptsTwoBlocks.len ≤ 2) ∧
    receiptsTwoBlocks.rootSlow 1 countFn =
      some (countFn (receiptsTwoBlocks.receiptVec.get ⟨1, by decide⟩)) :=
  ⟨(C8_root_slow receiptsTwoBlocks 2 countFn).1,
   (C8_root_slow receiptsTwoBlocks 1 countFn).2.1 (by decide)⟩

/-- C9: every wallet construction path sets the address to the value
derived from the signing key; no path takes an address independently of
the key. -/
theorem C9_wallet_address_derived :
    (∀ k, (Wallet.fromSigningKey k).address =
      secretKeyToAddress (Wallet.fromSigningKey k).signer) ∧
    (∀ bs w, Wallet.fromBytes bs = Except.ok w →
      w.address = secretKeyToAddress w.signer) ∧
    (∀ bs w, Wallet.fromFieldBytes bs = Except.ok w →
      w.address = secretKeyToAddress w.signer) ∧
    (∀ bs w, Wallet.fromSlice bs = Except.ok w →
      w.address = secretKeyToAddress w.signer) ∧
    (∀ e, (Wallet.randomWith e).address =
      secretKeyToAddress (Wallet.randomWith e).signer) ∧
    (∀ s w, Wallet.fromStr s = Except.ok w →
      w.address = secretKeyToAddress w.signer) ∧
    (∀ secret uuid w u, Wallet.newKeystore secret uuid = Except.ok (w, u) →
      w.address = secretKeyToAddress w.signer) ∧
    (∀ secret w, Wallet.decryptKeystore secret = Except.ok w →
      w.address = secretKeyToAddress w.signer) ∧
    (∀ pk uuid w u, Wallet.encryptKeystore pk uuid = Except.ok (w, u) →
      w.address = secretKeyToAddress w.signer) := by
  refine ⟨fun k => rfl, ?_, ?_, ?_, fun e => rfl, ?_, ?_, ?_, ?_⟩
  · intro bs w h
    exact wallet_map_path h
  · intro bs w h
    exact wallet_map_path h
  · intro bs w h
    exact wallet_map_path h
  · intro s w h
    unfold Wallet.fromStr at h
    obtain ⟨bytes, _, h2⟩ := bind_eq_ok h
    exact wallet_map_path h2
  · intro secret uuid w u h
    unfold Wallet.newKeystore at h
    obtain ⟨w0, hw0, h2⟩ := bind_eq_ok h
    rw [pureIsOk] at h2
    have : w0 = w := congrArg Prod.fst (Except.ok.inj h2)
    rw [← this]
    exact wallet_map_path hw0
  · intro secret w h
    exact wallet_map_path h
  · intro pk uuid w u h
    unfold Wallet.encryptKeystore at h
    obtain ⟨w0, hw0, h2⟩ := bind_eq_ok h
    rw [pureIsOk] at h2
    have : w0 = w := congrArg Prod.fst (Except.ok.inj h2)
    rw [← this]
    exact wallet_map_path hw0

/-- C9 witness: concrete byte, string, and keystore constructions all
carry the derived address of key 1. -/
theorem C9_witness :
    Wallet.fromSlice keyOneBytes = Except.ok (Wallet.fromSigningKey 1) ∧
    (Wallet.fromSigningKey 1).address =
      secretKeyToAddress (Wallet.fromSigningKey 1).signer ∧
    Wallet.newKeystore keyOneBytes "uuid-1" =
      Except.ok (Wallet.fromSigningKey 1, "uuid-1") := by
  have h1 : Wallet.fromSlice keyOneBytes = Except.ok (Wallet.fromSigningKey 1) := by
    rfl
  have h2 : Wallet.newKeystore keyOneBytes "uuid-1" =
      Except.ok (Wallet.fromSigningKey 1, "uuid-1") := by
    rfl
  exact ⟨h1, C9_wallet_address_derived.2.2.2.1 keyOneBytes _ h1, h2⟩

/-- C10: a pre-EIP-658 receipt (state-root status) is reported
successful by the boolean interface, on `Receipt` via `coerce_status`
and on `ReceiptWithBloom`, for every state root value. -/
theorem C10_post_state_is_success (root : ByteL) (cgu : Nat)
    (logs : List Log) (bloom : ByteL) :
    Eip658Value.coerceStatus (.postState root) = true ∧
    Receipt.statusBool ⟨.postState root, cgu, logs⟩ = true ∧
    ReceiptWithBloom.statusBool ⟨⟨.postState root, cgu, logs⟩, bloom⟩ = true :=
  ⟨rfl, rfl, rfl⟩

end Alloy
